import Mathlib

/-!
Verification development for the muffin repository: a shallow embedding of
the preset layout engine — the KDL-config parser (`parser/src/lib.rs`) and
the tmux layout materializer (`tmux/src/lib.rs`) — together with theorems
about the claims of the specification.

Modelling conventions:
* Rust `u8` values are `Nat` with explicit `% 256` where wrap-around matters
  (release-build wrapping semantics); `i64` is `Int`; `as u8` casts are
  `% 256` (integers) or saturation (float-to-int casts, which saturate in
  Rust).
* The `f32` percentage arithmetic of `apply_layout_recursive` is modelled
  bit-faithfully by `split_percent_f32`: the exact quotient
  `(remaining - child) / remaining` is rounded to the nearest IEEE-754
  binary32 value (round to nearest, ties to even), the product with
  `100.0` is rounded to binary32 again, and only then are `f32::round`
  (half away from zero) and the saturating `as u8` cast applied.  The
  running `remaining_pct` value and `child_pct` are carried as exact
  integers, which coincides with their `f32` values whenever their
  magnitudes stay below `2^24` — true of every reachable program state,
  the children's percentages being `u8` values.  The double rounding is
  observable: `(40 - 19) / 40 * 100` is exactly `52.5` and would round
  half away from zero to `53`, but its `f32` evaluation is `52.499996…`
  and the program issues `52` (see the C1 counterexample).
* The external tmux process is a backend oracle: a function from the index
  of the issued call to the textual response (`.ok stdout` for a zero exit
  code, `.error stderr` otherwise).  Every backend invocation is recorded
  in a trace, in issue order, whether it succeeds or fails.
* The two crates in the repository snapshot declare slightly different
  versions of the shared data model (`tmux/src/lib.rs` has
  `percentage`-fields and optional pane `cwd`; the parser constructs nodes
  with a `size` field and mandatory `cwd`, plus `Window.cwd`, `Preset.cwd`
  and `Preset.running`).  Each crate is embedded with the data model its
  own source uses: namespace `Tmux` follows `tmux/src/lib.rs`, namespace
  `Parser` follows `parser/src/lib.rs` (whose construction sites fully
  determine the field structure it needs; spec §3 lists the same fields).
-/

namespace Muffin

/-- Narrowing cast `as u8` applied to a Rust `i64`: keep the low 8 bits
(two's-complement truncation), i.e. reduce modulo 256. -/
def as_u8 (z : Int) : Nat := (z % 256).toNat

/-- Wrapping sum of `u8` values (`iter().sum::<u8>()` / repeated `+=` in a
release build): ordinary sum reduced modulo 256 (each addend is a `u8`). -/
def u8_sum (l : List Nat) : Nat := l.foldl (fun a b => (a + b) % 256) 0

/-- Number of binary digits of a natural number, written with explicit
fuel (the first argument) so that concrete values reduce inside the
kernel; `bitlen` instantiates the fuel with the number itself, which
always suffices. -/
def bitlen_aux : Nat → Nat → Nat
  | 0, _ => 0
  | fuel + 1, n => if n = 0 then 0 else bitlen_aux fuel (n / 2) + 1

/-- Number of binary digits of a natural number (`0` for `0`). -/
def bitlen (n : Nat) : Nat := bitlen_aux n n

/-- `⌊log2 (a / b)⌋` for positive naturals: the unique exponent `e` with
`2^e ≤ a/b < 2^(e+1)`, found from the bit lengths of numerator and
denominator and one comparison. -/
def qlog2 (a b : Nat) : Int :=
  let e0 : Int := (bitlen a : Int) - (bitlen b : Int)
  if 0 ≤ e0 then (if b * 2 ^ e0.toNat ≤ a then e0 else e0 - 1)
  else (if b ≤ a * 2 ^ (-e0).toNat then e0 else e0 - 1)

/-- Nearest integer to `a / b` (for `b > 0`) with ties broken to even —
the IEEE-754 default rounding that every `f32` operation applies to its
exact result. -/
def round_even_frac (a b : Nat) : Nat :=
  let q := a / b
  let r := a % b
  if 2 * r < b then q
  else if b < 2 * r then q + 1
  else if q % 2 = 0 then q else q + 1

/-- Round the positive fraction `a / b` to the nearest IEEE-754 binary32
value (round to nearest, ties to even), returned as a significand `sig`
and a power-of-two exponent `k`, the value being `sig * 2^k`: normal
values carry `2^23 ≤ sig < 2^24`; magnitudes below `2^(-126)` are
quantized on the subnormal grid `2^(-149)`; a result of magnitude
`2^128` stands in for the infinity the real operation would overflow to
(the downstream `as u8` cast treats the two identically). -/
def f32_of_frac_pos (a b : Nat) : Nat × Int :=
  let e := qlog2 a b
  if 128 ≤ e then (2 ^ 23, 105)
  else if e < -126 then (round_even_frac (a * 2 ^ 149) b, -149)
  else
    let k := e - 23
    let sig :=
      if 0 ≤ k then round_even_frac a (b * 2 ^ k.toNat)
      else round_even_frac (a * 2 ^ (-k).toNat) b
    if sig = 2 ^ 24 then (2 ^ 23, k + 1) else (sig, k)

/-- Multiply the binary32 value `sig * 2^k` by `100.0` and round the
product back to binary32 (an `f32` multiplication is correctly rounded on
its exact result). -/
def f32_times_100 (sig : Nat) (k : Int) : Nat × Int :=
  if 0 ≤ k then f32_of_frac_pos (100 * sig * 2 ^ k.toNat) 1
  else f32_of_frac_pos (100 * sig) (2 ^ (-k).toNat)

/-- `f32::round` (round half away from zero) of the nonnegative binary32
value `sig * 2^k`, as a natural number (`f32::round` is exact — its
result is always representable). -/
def round_half_away_dyadic (sig : Nat) (k : Int) : Nat :=
  if 0 ≤ k then sig * 2 ^ k.toNat
  else (2 * sig + 2 ^ (-k).toNat) / (2 * 2 ^ (-k).toNat)

/-- The percentage `(((remaining - child) / remaining) * 100.0).round() as u8`
exactly as the split loop of `tmux/src/lib.rs` computes it in `f32`: the
division and the multiplication are each rounded to the nearest binary32
value (ties to even) before `f32::round` (half away from zero) and the
saturating `as u8` cast apply.  `remaining` and `child` are carried as
exact integers, which coincides with their `f32` values whenever their
magnitudes stay below `2^24` — true of every reachable program state, the
children's percentages being `u8` values.  For `remaining = 0` the
division yields `NaN` (cast to `0`) or `±∞` (saturating to `255` resp.
`0`); a negative quotient saturates to `0`. -/
def split_percent_f32 (r c : Int) : Nat :=
  if r = 0 then (if 0 < r - c then 255 else 0)
  else if r - c = 0 then 0
  else
    let s1 := f32_of_frac_pos (r - c).natAbs r.natAbs
    let s2 := f32_times_100 s1.1 s1.2
    if (0 < r - c) = (0 < r) then min (round_half_away_dyadic s2.1 s2.2) 255 else 0

/-- Rounding half away from zero on an exact rational, the tie-break
policy the spec fixes for the materializer's percentage formula. -/
def rat_round_half_away (q : ℚ) : ℤ := if 0 ≤ q then ⌊q + 1/2⌋ else -⌊-q + 1/2⌋

/-- Substring containment, used to state that an error message names the
offending node. -/
def str_contains (hay needle : String) : Prop := ∃ a b, hay = a ++ needle ++ b

/-- Lexicographic comparison of character lists. -/
def chars_lt : List Char → List Char → Bool
  | [], [] => false
  | [], _ :: _ => true
  | _ :: _, [] => false
  | a :: as, b :: bs => if a < b then true else if b < a then false else chars_lt as bs

/-- The strict order of Rust's `Ord for String` (byte-wise comparison of
the UTF-8 encodings, which orders strings exactly like their scalar-value
sequences), under which `BTreeMap` keeps its keys. -/
def str_lt (a b : String) : Bool := chars_lt a.data b.data

/-- First occurrence split, modelling Rust's `str::split_once` on the
character lists underlying the strings. -/
def split_once_chars (c : Char) : List Char → Option (List Char × List Char)
  | [] => none
  | x :: rest =>
    if x = c then some ([], rest)
    else
      match split_once_chars c rest with
      | none => none
      | some (a, b) => some (x :: a, b)

/-- Rust's `str::split_once`. -/
def split_once (s : String) (c : Char) : Option (String × String) :=
  match split_once_chars c s.data with
  | none => none
  | some (a, b) => some (String.mk a, String.mk b)

/-- Rust's `str::trim` (whitespace stripped from both ends). -/
def str_trim (s : String) : String :=
  String.mk (((s.data.dropWhile Char.isWhitespace).reverse.dropWhile Char.isWhitespace).reverse)

/-- Digit accumulator for `parse::<usize>`. -/
def parse_digits (acc : Nat) : List Char → Option Nat
  | [] => some acc
  | c :: rest => if c.isDigit then parse_digits (acc * 10 + (c.toNat - 48)) rest else none

/-- Rust's `str::parse::<usize>` (an optional leading `+`, then one or
more decimal digits). -/
def parse_usize (s : String) : Option Nat :=
  match s.data with
  | [] => none
  | '+' :: rest => if rest = [] then none else parse_digits 0 rest
  | l => parse_digits 0 l

/-- Debug formatting `{:?}` of a `Vec<u8>`, e.g. `[20, 30]`. -/
def debug_list_aux : List Nat → String
  | [] => ""
  | x :: rest => ", " ++ Nat.repr x ++ debug_list_aux rest

/-- Debug formatting `{:?}` of a `Vec<u8>`. -/
def debug_list : List Nat → String
  | [] => "[]"
  | x :: rest => "[" ++ Nat.repr x ++ debug_list_aux rest ++ "]"

/-- Direction of a binary split (`tmux/src/lib.rs`, `SplitDirection`). -/
inductive SplitDirection where
  | horizontal
  | vertical
deriving DecidableEq

namespace Tmux

/-- Layout tree of `tmux/src/lib.rs`: `Pane{cwd, command, percentage}` and
`Split{direction, children, percentage}`. -/
inductive LayoutNode where
  | pane (cwd : Option String) (command : Option String) (percentage : Nat)
  | split (direction : SplitDirection) (children : List LayoutNode) (percentage : Nat)

/-- Uniform accessor `LayoutNode::percentage`. -/
def percentage : LayoutNode → Nat
  | .pane _ _ p => p
  | .split _ _ p => p

/-- A window of `tmux/src/lib.rs`: a name and a layout root. -/
structure Window where
  name : String
  layout : LayoutNode

/-- A preset of `tmux/src/lib.rs`: a name and an ordered window list. -/
structure Preset where
  name : String
  windows : List Window

/-- Error message of `verify_layout_recursive`:
`format!("Percentages {:?} add up to {}, expected 100.", percentages, sum)`. -/
def percent_msg (percentages : List Nat) (sum : Nat) : String :=
  "Percentages " ++ debug_list percentages ++ " add up to " ++ Nat.repr sum ++ ", expected 100."

mutual

/-- `verify_layout_recursive`: on a `Split`, the `u8` sum of the children's
percentages must be exactly `100`, then each child is verified in order
(`collect` on an iterator of `Result`s stops at the first error). -/
def verify_layout_recursive : LayoutNode → Except String Unit
  | .pane _ _ _ => .ok ()
  | .split _ children _ =>
    let percentages := children.map percentage
    let sum := u8_sum percentages
    if sum ≠ 100 then .error (percent_msg percentages sum)
    else verify_children children

/-- Short-circuiting traversal of a `Split`'s children by
`verify_layout_recursive`. -/
def verify_children : List LayoutNode → Except String Unit
  | [] => .ok ()
  | c :: rest =>
    match verify_layout_recursive c with
    | .error e => .error e
    | .ok _ => verify_children rest

end

/-- `verify_preset`: verify every window's layout, in order. -/
def verify_preset (preset : Preset) : Except String Unit :=
  verify_windows preset.windows
where
  verify_windows : List Window → Except String Unit
    | [] => .ok ()
    | w :: rest =>
      match verify_layout_recursive w.layout with
      | .error e => .error e
      | .ok _ => verify_windows rest

/-- One backend invocation (a `run_command("tmux", ...)` call), recording
the data the source interpolates into the argument list:
`new_session n` is `["new-session", "-s", n, "-d"]` (or `["new-session", "-d"]`
for an empty name), `rename_window t n` is `["rename-window", "-t", t, n]`,
`new_window s n` is `["new-window", "-t", s, "-n", n, "-P"]`,
`split_window t p f` is `["split-window", "-t", t, f, "-p", toString p, "-P"]`,
and `send_keys t text` is `["send-keys", "-t", t, text, "Enter"]`. -/
inductive BackendCall where
  | new_session (name : Option String)
  | rename_window (target : String) (name : String)
  | new_window (session : String) (name : String)
  | split_window (target : String) (pct : Nat) (dirFlag : String)
  | send_keys (target : String) (text : String)
deriving DecidableEq

/-- Backend oracle: the response of the external tmux process to the n-th
issued call — `.ok stdout` when the process exits 0, `.error stderr`
otherwise (the error path of `run_command`). -/
def Oracle := Nat → Except String String

/-- Materializer state: how many backend calls have been issued, and the
trace of the issued calls in order. -/
structure MState where
  idx : Nat
  trace : List BackendCall
deriving DecidableEq

/-- `run_command`: issue one backend call and return the oracle's
response for it. The call is recorded whether it succeeds or fails. -/
def run_command (o : Oracle) (c : BackendCall) (s : MState) : MState × Except String String :=
  (⟨s.idx + 1, s.trace ++ [c]⟩, o s.idx)

/-- Early-return composition, Rust's `?` operator: stop at the first
error, otherwise continue with the produced value. -/
def and_then {α β : Type} (step : MState × Except String α)
    (k : α → MState → MState × Except String β) : MState × Except String β :=
  match step with
  | (s, .error e) => (s, .error e)
  | (s, .ok a) => k a s

/-- The direction flag `split_window` passes to tmux. -/
def dir_flag : SplitDirection → String
  | .horizontal => "-h"
  | .vertical => "-v"

/-- `split_window`: issue a `split-window -t target flag -p pct -P` call
and parse the printed pane address `session:window.index`. A response that
does not split on `:` and `.` is `"Unexpected output"`; a pane index that
does not parse as `usize` is `"Parsing error"`. -/
def split_window (o : Oracle) (target : String) (pct : Nat) (direction : SplitDirection)
    (s : MState) : MState × Except String (String × String × Nat) :=
  and_then (run_command o (.split_window target pct (dir_flag direction)) s) fun output s =>
    match split_once (str_trim output) ':' with
    | none => (s, .error "Unexpected output")
    | some (session_name, rest) =>
      match split_once rest '.' with
      | none => (s, .error "Unexpected output")
      | some (window_name, pane_index) =>
        match parse_usize pane_index with
        | none => (s, .error "Parsing error")
        | some k => (s, .ok (session_name, window_name, k))

/-- `create_session`: `new-session -d`, with `-s name` unless the name is
empty. -/
def create_session (o : Oracle) (new_name : String) (s : MState) : MState × Except String Unit :=
  if new_name = "" then
    and_then (run_command o (.new_session none) s) fun _ s => (s, .ok ())
  else
    and_then (run_command o (.new_session (some new_name)) s) fun _ s => (s, .ok ())

/-- The `cd`-injection step of the pane branch of `apply_layout_recursive`:
`send-keys -t target "cd path" Enter` when a cwd is present. -/
def send_cwd (o : Oracle) (target : String) (cwd : Option String) (s : MState) :
    MState × Except String Unit :=
  match cwd with
  | some path => and_then (run_command o (.send_keys target ("cd " ++ path)) s) fun _ s => (s, .ok ())
  | none => (s, .ok ())

/-- The command-injection step of the pane branch of
`apply_layout_recursive`: `send-keys -t target cmd Enter` when a command is
present. -/
def send_command (o : Oracle) (target : String) (command : Option String) (s : MState) :
    MState × Except String Unit :=
  match command with
  | some cmd => and_then (run_command o (.send_keys target cmd) s) fun _ s => (s, .ok ())
  | none => (s, .ok ())

mutual

/-- `apply_layout_recursive`: a pane issues its `cd` and command
keystrokes into the target pane; a split runs the carving loop over its
children with `remaining_pct` initialized to the literal `100.0` and
`current_target` the pane handed in. -/
def apply_layout_recursive (o : Oracle) (pane_target : String) :
    LayoutNode → MState → MState × Except String Unit
  | .pane cwd command _, s =>
    and_then (send_cwd o pane_target cwd s) fun _ s =>
      send_command o pane_target command s
  | .split direction children _, s =>
    apply_split_loop o direction children 100 pane_target s

/-- The per-child loop of the split branch of `apply_layout_recursive`:
the last child is materialized directly into `current_target` (no split);
every earlier child first splits `current_target` — the new pane's
percentage being `(((remaining - child)/remaining) * 100).round() as u8`
evaluated in `f32` (`split_percent_f32`) — then recurses into
`current_target` with the child's layout, then moves `current_target` to
the freshly created pane and decrements `remaining`. -/
def apply_split_loop (o : Oracle) (direction : SplitDirection) :
    List LayoutNode → Int → String → MState → MState × Except String Unit
  | [], _, _, s => (s, .ok ())
  | [child], _, current_target, s => apply_layout_recursive o current_target child s
  | child :: next :: rest, remaining, current_target, s =>
    let split_p := split_percent_f32 remaining (percentage child : Int)
    and_then (split_window o current_target split_p direction s) fun addr s =>
      let next_pane_target := addr.1 ++ ":" ++ addr.2.1 ++ "." ++ Nat.repr addr.2.2
      and_then (apply_layout_recursive o current_target child s) fun _ s =>
        apply_split_loop o direction (next :: rest) (remaining - (percentage child : Int))
          next_pane_target s

end

/-- The per-window loop of `spawn_preset`: window 0 renames the session's
default window (`rename-window -t name:0`), later windows are created with
`new-window` (whose printed output the source discards); each window's
layout is then materialized into its initial pane `name:window.0`. -/
def spawn_windows (o : Oracle) (preset_name : String) :
    List Window → Nat → MState → MState × Except String Unit
  | [], _, s => (s, .ok ())
  | w :: rest, i, s =>
    let step :=
      if i = 0 then run_command o (.rename_window (preset_name ++ ":0") w.name) s
      else run_command o (.new_window preset_name w.name) s
    and_then step fun _ s =>
      let window_target := preset_name ++ ":" ++ w.name
      let initial_pane := window_target ++ ".0"
      and_then (apply_layout_recursive o initial_pane w.layout s) fun _ s =>
        spawn_windows o preset_name rest (i + 1) s

/-- `spawn_preset`: verify the preset, create its session, then
materialize every window in order, starting from an empty trace. -/
def spawn_preset (o : Oracle) (preset : Preset) : MState × Except String Unit :=
  match verify_preset preset with
  | .error e => (⟨0, []⟩, .error e)
  | .ok _ =>
    and_then (create_session o preset.name ⟨0, []⟩) fun _ s =>
      spawn_windows o preset.name preset.windows 0 s

/-- The percentages of the `split_window` calls appearing in a trace, in
order. -/
def split_pcts : List BackendCall → List Nat
  | [] => []
  | .split_window _ p _ :: rest => p :: split_pcts rest
  | _ :: rest => split_pcts rest

/-- Percentage recurrence of the carving loop, extracted from the code:
for each child except the last, emit
`(((remaining - child)/remaining) * 100).round() as u8` evaluated in
`f32` (`split_percent_f32`) and decrement `remaining`. -/
def code_split_pcts (remaining : Int) : List Nat → List Nat
  | [] => []
  | [_] => []
  | c :: next :: rest =>
    split_percent_f32 remaining (c : Int) ::
      code_split_pcts (remaining - (c : Int)) (next :: rest)

/-- Percentage recurrence in the words of the spec: for children sizes
`s_1..s_n`, the i-th new pane's percentage is
`round(((remaining − s_i) / remaining) × 100)` (round half away from
zero), with `remaining` decremented by `s_i` after each split and no value
emitted for the last child. -/
def spec_split_pcts (remaining : ℚ) : List Nat → List ℤ
  | [] => []
  | [_] => []
  | s :: next :: rest =>
    rat_round_half_away ((remaining - (s : ℚ)) / remaining * 100) ::
      spec_split_pcts (remaining - (s : ℚ)) (next :: rest)

/-- The oracle of an always-succeeding backend whose `split-window` calls
print the pane address `s:w.1`. -/
def good_oracle : Oracle := fun _ => .ok "s:w.1"

/-- The keystroke calls a pane issues (its `cd`, then its command). -/
def pane_calls (target : String) (cwd command : Option String) : List BackendCall :=
  (match cwd with
   | some path => [.send_keys target ("cd " ++ path)]
   | none => [])
  ++ (match command with
      | some cmd => [.send_keys target cmd]
      | none => [])

mutual

/-- The pure call trace `apply_layout_recursive` produces under
`good_oracle`. -/
def trace_of (target : String) : LayoutNode → List BackendCall
  | .pane cwd command _ => pane_calls target cwd command
  | .split direction children _ => trace_split target direction 100 children

/-- The pure call trace of the carving loop under `good_oracle`: each
non-last child contributes its `split-window` call, then its own trace
into the original target; the loop then continues into the parsed new
pane `s:w.1`. -/
def trace_split (target : String) (direction : SplitDirection) (remaining : Int) :
    List LayoutNode → List BackendCall
  | [] => []
  | [child] => trace_of target child
  | child :: next :: rest =>
    .split_window target (split_percent_f32 remaining (percentage child : Int))
        (dir_flag direction)
      :: (trace_of target child
          ++ trace_split "s:w.1" direction (remaining - (percentage child : Int)) (next :: rest))

end

mutual

/-- Pre-order list of the children-percentage vectors of every `Split`
node of a layout (the vectors `verify_layout_recursive` sums). -/
def split_lists : LayoutNode → List (List Nat)
  | .pane _ _ _ => []
  | .split _ children _ => (children.map percentage) :: split_lists_l children

/-- Pre-order `split_lists` of a list of layouts. -/
def split_lists_l : List LayoutNode → List (List Nat)
  | [] => []
  | c :: rest => split_lists c ++ split_lists_l rest

end

/-- The `split_lists` of a preset's windows, in order. -/
def preset_split_lists (preset : Preset) : List (List Nat) :=
  (preset.windows.map (fun w => split_lists w.layout)).flatten

/-- Whether a layout node is a `Pane` leaf. -/
def is_pane : LayoutNode → Bool
  | .pane _ _ _ => true
  | .split _ _ _ => false

/-- Abort discipline of a backend-calling step: the call counter only
grows, the trace grows by exactly one entry per counted call, on success
every issued call received an `.ok` response, and on failure every issued
call but the last received an `.ok` response while the returned error is
the last call's response (or one of the two fixed messages with which
`split_window` rejects a malformed response). -/
def Clean {α : Type} (o : Oracle) (f : MState → MState × Except String α) : Prop :=
  ∀ s : MState,
    s.idx ≤ (f s).1.idx
    ∧ (∃ d, (f s).1.trace = s.trace ++ d ∧ s.idx + d.length = (f s).1.idx)
    ∧ (∀ a, (f s).2 = .ok a → ∀ i, s.idx ≤ i → i < (f s).1.idx → ∃ out, o i = .ok out)
    ∧ (∀ e, (f s).2 = .error e →
        s.idx < (f s).1.idx
        ∧ (∀ i, s.idx ≤ i → i + 1 < (f s).1.idx → ∃ out, o i = .ok out)
        ∧ (o ((f s).1.idx - 1) = .error e ∨ e = "Unexpected output" ∨ e = "Parsing error"))

/-- Three panes with sizes 20/30/50, the materializer example of the
spec. -/
def demo_children_203050 : List LayoutNode :=
  [.pane none none 20, .pane none none 30, .pane none none 50]

/-- Three-pane split with sizes 20/30/50, the materializer example of the
spec. -/
def demo_split_203050 : LayoutNode := .split .vertical demo_children_203050 100

/-- Two panes with sizes 10/10, which do not sum to 100. -/
def demo_children_1010 : List LayoutNode := [.pane none none 10, .pane none none 10]

/-- Two-pane split with sizes 10/10 whose sizes do not sum to 100. -/
def demo_split_1010 : LayoutNode := .split .vertical demo_children_1010 100

/-- Three panes with sizes 60/19/21 (positive, summing to 100): at the
second split the exact percentage is `(21/40)*100 = 52.5`, which the
`f32` double rounding turns into `52.499996…`. -/
def demo_children_601921 : List LayoutNode :=
  [.pane none none 60, .pane none none 19, .pane none none 21]

/-- Three-pane split with sizes 60/19/21, the `f32` double-rounding
example. -/
def demo_split_601921 : LayoutNode := .split .vertical demo_children_601921 100

/-- Two-pane split whose first child carries a command, making the order
of its `send-keys` call relative to the `split-window` call observable. -/
def demo_split_cmd : LayoutNode :=
  .split .horizontal [.pane none (some "echo hi") 50, .pane none none 50] 100

/-- One-window preset holding the 20/30/50 split. -/
def demo_preset_203050 : Preset := ⟨"p", [⟨"w", demo_split_203050⟩]⟩

/-- An oracle that answers the first three calls with the pane address
`s:w.1` and fails every later call with `boom`: under
`demo_preset_203050` the failure hits the second `split-window` call (the
fourth call overall, after `new-session`, `rename-window` and the first
`split-window`). -/
def failing_oracle : Oracle := fun i => if i < 3 then .ok "s:w.1" else .error "boom"

/-- One-window preset whose split percentages 200/156 sum to 356, which
the `u8` sum of `verify_layout_recursive` wraps to 100. -/
def demo_preset_wrap : Preset :=
  ⟨"p", [⟨"w", .split .vertical [.pane none none 200, .pane none none 156] 100⟩]⟩

/-- One-window preset whose split percentages 20/30 sum to 50: rejected
by `verify_layout_recursive`. -/
def demo_preset_bad_sum : Preset :=
  ⟨"p", [⟨"w", .split .vertical [.pane none none 20, .pane none none 30] 100⟩]⟩

end Tmux

namespace Parser

/-- A KDL attribute value as the parser consumes it (`kdl::KdlValue`
restricted to the accessors the source uses). -/
inductive KdlValue where
  | str (s : String)
  | int (n : Int)
  | boolean (b : Bool)
  | null

/-- `KdlValue::as_string`. -/
def KdlValue.as_string : KdlValue → Option String
  | .str s => some s
  | _ => none

/-- `KdlValue::as_integer`. -/
def KdlValue.as_integer : KdlValue → Option Int
  | .int n => some n
  | _ => none

/-- A KDL node: a name, named entries (properties), and an optional child
block (`node` without braces has no block; `node { }` has an empty one).
The untyped KDL text syntax itself is parsed by the external `kdl` crate
(`doc_str.parse()` in `parse_config`); the embedding starts from the
resulting node list. -/
inductive KdlNode where
  | mk (name : String) (entries : List (String × KdlValue)) (children : Option (List KdlNode))

/-- `KdlNode::name().value()`. -/
def KdlNode.name : KdlNode → String
  | .mk n _ _ => n

/-- The entries of a node. -/
def KdlNode.entries : KdlNode → List (String × KdlValue)
  | .mk _ es _ => es

/-- `KdlNode::children()`. -/
def KdlNode.children : KdlNode → Option (List KdlNode)
  | .mk _ _ cs => cs

/-- Entry lookup by key on an entry list. Nodes with duplicate property
keys do not occur in any input treated here. -/
def lookup_entry (key : String) : List (String × KdlValue) → Option KdlValue
  | [] => none
  | (k, v) :: rest => if k = key then some v else lookup_entry key rest

/-- `KdlNode::get(key)`. -/
def KdlNode.get (node : KdlNode) (key : String) : Option KdlValue :=
  lookup_entry key node.entries

/-- Layout tree as the parser constructs it (`size` field, mandatory pane
`cwd`): `Pane{cwd, command, size}` and `Split{direction, children, size}`. -/
inductive LayoutNode where
  | pane (cwd : String) (command : Option String) (size : Nat)
  | split (direction : SplitDirection) (children : List LayoutNode) (size : Nat)

/-- `set_size`: uniform setter for the `size` field of either variant. -/
def set_size (node : LayoutNode) (val : Nat) : LayoutNode :=
  match node with
  | .pane cwd command _ => .pane cwd command val
  | .split direction children _ => .split direction children val

/-- Uniform accessor for the `size` field (for stating properties of the
parse result). -/
def node_size : LayoutNode → Nat
  | .pane _ _ s => s
  | .split _ _ s => s

/-- A window as the parser constructs it. -/
structure Window where
  name : String
  cwd : String
  layout : LayoutNode

/-- A preset as the parser constructs it (`running` is always `false`
after parsing). -/
structure Preset where
  name : String
  cwd : String
  windows : List Window
  running : Bool

/-- The explicit `size` attribute of a node, before narrowing:
`node.get("size").and_then(|v| v.as_integer())`. -/
def get_size_int (node : KdlNode) : Option Int :=
  (node.get "size").bind KdlValue.as_integer

/-- The narrowed explicit size `.map(|v| v as u8)` of a node, when
declared. -/
def explicit_size (node : KdlNode) : Option Nat :=
  (get_size_int node).map as_u8

/-- Direction resolution of a `split` node: attribute `direction`
(default `"v"`), accepting `h`/`horizontal` and `v`/`vertical`. -/
def parse_direction (node : KdlNode) : Except String SplitDirection :=
  let dir_str := ((node.get "direction").bind KdlValue.as_string).getD "v"
  if dir_str = "h" ∨ dir_str = "horizontal" then .ok .horizontal
  else if dir_str = "v" ∨ dir_str = "vertical" then .ok .vertical
  else .error ("Invalid direction: `" ++ dir_str ++ "`")

/-- Setting the size of the element at one index (`set_size(&mut
children[idx], share)`); indices produced by the parser are always in
bounds. -/
def set_size_at (v : Nat) : List LayoutNode → Nat → List LayoutNode
  | [], _ => []
  | c :: rest, 0 => set_size c v :: rest
  | c :: rest, i + 1 => c :: set_size_at v rest i

/-- Early-return composition on parse results, Rust's `?` operator. -/
def and_then_e {α β : Type} (x : Except String α) (k : α → Except String β) : Except String β :=
  match x with
  | .error e => .error e
  | .ok a => k a

/-- Whether a parse result is a success (`Result::is_ok`). -/
def except_is_ok {α : Type} : Except String α → Bool
  | .ok _ => true
  | .error _ => false

/-- The assembly step closing the `split` branch of
`parse_node_recursive` once the children are parsed: reject an empty
child list, then distribute `remaining / missing_count` (integer
division, `remaining = 100 − total_explicit` clamped at 0, the count
narrowed `as u8`) to every child recorded in `missing_indices`, and carry
the split's own explicit size (placeholder `0`). -/
def split_assemble (direction : SplitDirection) (size : Nat)
    (res : List LayoutNode × Nat × List Nat) : Except String LayoutNode :=
  if res.1.isEmpty then .error "Split nodes must contain children"
  else
    let children :=
      if res.2.2.isEmpty then res.1
      else
        let remaining := if 100 ≤ res.2.1 then 0 else 100 - res.2.1
        let share := remaining / (res.2.2.length % 256)
        res.2.2.foldl (fun cs idx => set_size_at share cs idx) res.1
    .ok (.split direction children size)

mutual

/-- `parse_node_recursive`: a `pane` reads `cwd` (default: the parent's),
`command`, and its explicit size (placeholder `0` when omitted); a `split`
resolves its direction, parses its children — tracking the wrapping `u8`
sum of the explicit child sizes and the indices of children lacking one —
and assembles them through `split_assemble`; any other node name is an
error naming the node. -/
def parse_node_recursive (node : KdlNode) (parent_cwd : String) : Except String LayoutNode :=
  match node with
  | .mk node_name entries children_opt =>
    if node_name = "pane" then
      let cwd := ((lookup_entry "cwd" entries).bind KdlValue.as_string).getD parent_cwd
      let command := (lookup_entry "command" entries).bind KdlValue.as_string
      .ok (.pane cwd command ((((lookup_entry "size" entries).bind KdlValue.as_integer).map as_u8).getD 0))
    else if node_name = "split" then
      and_then_e (parse_direction (.mk node_name entries children_opt)) fun direction =>
        and_then_e
          (match children_opt with
            | some document => parse_split_kids parent_cwd document 0
            | none => .ok ([], 0, []))
          (split_assemble direction
            ((((lookup_entry "size" entries).bind KdlValue.as_integer).map as_u8).getD 0))
    else .error ("Unexpected node: `" ++ node_name ++ "`")

/-- The child loop of the `split` branch of `parse_node_recursive`:
parse each child; a child with an explicit `size=p` is patched to `p as u8`
and added to the wrapping `u8` accumulator `total_explicit`; a child
without one is recorded in `missing_indices`. -/
def parse_split_kids (parent_cwd : String) (nodes : List KdlNode) (i : Nat) :
    Except String (List LayoutNode × Nat × List Nat) :=
  match nodes with
  | [] => .ok ([], 0, [])
  | n :: rest =>
    and_then_e (parse_node_recursive n parent_cwd) fun layout_child =>
      let step : LayoutNode × Nat × List Nat :=
        match (KdlNode.get n "size").bind KdlValue.as_integer with
        | some p => (set_size layout_child (as_u8 p), as_u8 p, [])
        | none => (layout_child, 0, [i])
      and_then_e (parse_split_kids parent_cwd rest (i + 1)) fun res =>
        .ok (step.1 :: res.1, (step.2.1 + res.2.1) % 256, step.2.2 ++ res.2.2)

end

/-- `parse_panes`: an empty window body is a single full-size pane; more
than one root node is an error; the single root node is parsed and its
size forced to 100. -/
def parse_panes (window_children : List KdlNode) (window_cwd : String) :
    Except String LayoutNode :=
  match window_children with
  | [] => .ok (.pane window_cwd none 100)
  | [root] =>
    match parse_node_recursive root window_cwd with
    | .error e => .error e
    | .ok root_node => .ok (set_size root_node 100)
  | _ :: _ :: _ => .error "Expected exactly one root `split` or `pane` node"

/-- The per-window loop of `parse_windows`: every node must be named
`window`; its `cwd` defaults to the parent's and its name to its
position; a window without a child block is a single full-size pane,
otherwise its body goes through `parse_panes`. -/
def parse_windows_loop (parent_cwd : String) : List KdlNode → Nat → Except String (List Window)
  | [], _ => .ok []
  | window :: rest, idx =>
    if window.name ≠ "window" then
      .error ("Unknown session child node: `" ++ window.name ++ "`")
    else
      let window_cwd := ((window.get "cwd").bind KdlValue.as_string).getD parent_cwd
      let window_name := ((window.get "name").bind KdlValue.as_string).getD (Nat.repr idx)
      let panes : Except String LayoutNode :=
        match window.children with
        | some window_children => parse_panes window_children window_cwd
        | none => .ok (.pane window_cwd none 100)
      match panes with
      | .error e => .error e
      | .ok layout =>
        match parse_windows_loop parent_cwd rest (idx + 1) with
        | .error e => .error e
        | .ok ret => .ok (⟨window_name, window_cwd, layout⟩ :: ret)

/-- `parse_windows`: an empty window list yields the default single
`main` window; otherwise the loop runs (with a defensive fallback window
should it ever produce an empty list). -/
def parse_windows (windows : List KdlNode) (parent_cwd : String) :
    Except String (List Window) :=
  if windows.isEmpty then
    .ok [⟨"main", parent_cwd, .pane parent_cwd none 100⟩]
  else
    match parse_windows_loop parent_cwd windows 0 with
    | .error e => .error e
    | .ok ret =>
      .ok (if ret.isEmpty then [⟨"name", parent_cwd, .pane parent_cwd none 100⟩] else ret)

/-- `parse_session`: the node must be named `session` and carry a string
`name` attribute; `cwd` defaults to `~`; a session without a child block
gets the default single-pane `main` window. -/
def parse_session (session : KdlNode) : Except String Preset :=
  if session.name ≠ "session" then .error "Node is not a session"
  else
    match (session.get "name").bind KdlValue.as_string with
    | none => .error "Missing or invalid session name!"
    | some session_name =>
      let session_cwd := ((session.get "cwd").bind KdlValue.as_string).getD "~"
      let windows : Except String (List Window) :=
        match session.children with
        | some session_children => parse_windows session_children session_cwd
        | none => .ok [⟨"main", session_cwd, .pane session_cwd none 100⟩]
      match windows with
      | .error e => .error e
      | .ok ws => .ok ⟨session_name, session_cwd, ws, false⟩

/-- Ordered insertion into the association list modelling
`BTreeMap<String, Preset>`: keys kept in strictly ascending order, an
equal key's value replaced (`BTreeMap::insert`). -/
def insert_sorted (k : String) (v : Preset) : List (String × Preset) → List (String × Preset)
  | [] => [(k, v)]
  | (k', v') :: rest =>
    if str_lt k k' then (k, v) :: (k', v') :: rest
    else if k = k' then (k, v) :: rest
    else (k', v') :: insert_sorted k v rest

/-- Key lookup in the association list modelling `BTreeMap`. -/
def map_find (k : String) : List (String × Preset) → Option Preset
  | [] => none
  | (k', v) :: rest => if k' = k then some v else map_find k rest

/-- The insertion loop of `parse_config`: parse each top-level node as a
session and insert the preset under its name. -/
def parse_config_loop : List KdlNode → List (String × Preset) →
    Except String (List (String × Preset))
  | [], map => .ok map
  | node :: rest, map =>
    match parse_session node with
    | .error e => .error e
    | .ok preset => parse_config_loop rest (insert_sorted preset.name preset map)

/-- `parse_config`: fold the document's top-level nodes into a map from
preset name to preset (iterated in ascending name order, modelled as a
sorted association list). -/
def parse_config (nodes : List KdlNode) : Except String (List (String × Preset)) :=
  parse_config_loop nodes []

/-- The narrowed explicit sizes of the children of a split, in order
(children lacking a `size` attribute contribute nothing). -/
def explicit_sizes (ns : List KdlNode) : List Nat := ns.filterMap explicit_size

/-- The number of children lacking an explicit `size` attribute. -/
def missing_count (ns : List KdlNode) : Nat :=
  (ns.filter (fun n => get_size_int n = none)).length

/-- The indices (offset by `i`) of the children lacking an explicit
`size` attribute, in increasing order — the `missing_indices` vector of
`parse_node_recursive`. -/
def missing_idx : List KdlNode → Nat → List Nat
  | [], _ => []
  | n :: rest, i =>
    (if get_size_int n = none then [i] else []) ++ missing_idx rest (i + 1)

/-- Size-resolution rule in the words of the spec/claim: `remaining` is
`100` minus the sum of the explicitly declared sizes, clamped to `0` when
that sum reaches or exceeds `100`, and every child lacking an explicit
size receives `remaining` divided (integer, truncating) by the number of
such children. -/
def claim_share (explicit : List Nat) (missing : Nat) : Nat :=
  (if 100 ≤ explicit.sum then 0 else 100 - explicit.sum) / missing

/-- A bare `pane` node with the given entries. -/
def pane_node (es : List (String × KdlValue)) : KdlNode := .mk "pane" es none

/-- Split with children `[{size:33}, {command:"nvim"}, {size:33}]`, the
spec's size-resolution example. -/
def demo_split_33 : KdlNode :=
  .mk "split" []
    (some [pane_node [("size", .int 33)], pane_node [("command", .str "nvim")],
      pane_node [("size", .int 33)]])

/-- Split with children `[{size:130}, {}, {size:130}]`, whose explicit
sizes sum to 260: the `u8` accumulator wraps to 4. -/
def demo_split_130 : KdlNode :=
  .mk "split" []
    (some [pane_node [("size", .int 130)], pane_node [], pane_node [("size", .int 130)]])

/-- A `pane` node declaring `size=300`. -/
def demo_pane_300 : KdlNode := pane_node [("size", .int 300)]

/-- Split whose second child is itself an unsized `split` of two unsized
panes: size resolution assigns the nested split the distributed share
(and, recursively, each of its panes half of 100). -/
def demo_split_nested : KdlNode :=
  .mk "split" []
    (some [pane_node [("size", .int 40)],
      .mk "split" [] (some [pane_node [], pane_node []])])

/-- A config document whose session body holds the unrecognized node
`foo {}` where a `window` node is expected. -/
def demo_session_child_foo : KdlNode :=
  .mk "session" [("name", .str "s")] (some [.mk "foo" [] (some [])])

/-- A config document whose session's window body holds the unrecognized
node `foo {}`. -/
def demo_session_foo : KdlNode :=
  .mk "session" [("name", .str "s")] (some [.mk "window" [] (some [.mk "foo" [] (some [])])])

/-- A session node with a given name and cwd and no body. -/
def session_node (n : String) (cwd : String) : KdlNode :=
  .mk "session" [("name", .str n), ("cwd", .str cwd)] none

/-- A session whose single window holds a split (one sized, one unsized
pane), exercising the root-size override. -/
def demo_session_split : KdlNode :=
  .mk "session" [("name", .str "s")]
    (some [.mk "window" []
      (some [.mk "split" [] (some [pane_node [("size", .int 30)], pane_node []])])])

/-- The preset `demo_session_split` parses to. -/
def demo_preset_split : Preset :=
  ⟨"s", "~", [⟨"0", "~", .split .vertical [.pane "~" none 30, .pane "~" none 70] 100⟩], false⟩

end Parser

namespace Tmux

theorem code_split_pcts_length (r : Int) (sizes : List Nat) :
    (code_split_pcts r sizes).length = sizes.length - 1 := by
  induction sizes generalizing r with
  | nil => simp [code_split_pcts]
  | cons c rest ih =>
    cases rest with
    | nil => simp [code_split_pcts]
    | cons next rest' =>
      simp [code_split_pcts, ih]

theorem split_pcts_append (a b : List BackendCall) :
    split_pcts (a ++ b) = split_pcts a ++ split_pcts b := by
  induction a with
  | nil => simp [split_pcts]
  | cons x rest ih =>
    cases x <;> simp [split_pcts, ih]

theorem split_pcts_pane_calls (t : String) (cwd cmd : Option String) :
    split_pcts (pane_calls t cwd cmd) = [] := by
  cases cwd <;> cases cmd <;> simp [pane_calls, split_pcts]

theorem split_pcts_trace_split (cs : List LayoutNode) (hpane : ∀ c ∈ cs, is_pane c = true) :
    ∀ (tgt : String) (dir : SplitDirection) (r : Int),
      split_pcts (trace_split tgt dir r cs) = code_split_pcts r (cs.map percentage) := by
  induction cs with
  | nil => intro tgt dir r; simp [trace_split, code_split_pcts, split_pcts]
  | cons c rest ih =>
    intro tgt dir r
    cases rest with
    | nil =>
      obtain ⟨cw, cm, p, rfl⟩ : ∃ cw cm p, c = .pane cw cm p := by
        cases c with
        | pane cw cm p => exact ⟨cw, cm, p, rfl⟩
        | split d k p => simp [is_pane] at hpane
      simp [trace_split, trace_of, code_split_pcts, split_pcts_pane_calls]
    | cons next rest' =>
      obtain ⟨cw, cm, p, rfl⟩ : ∃ cw cm p, c = .pane cw cm p := by
        cases c with
        | pane cw cm p => exact ⟨cw, cm, p, rfl⟩
        | split d k p =>
          have := hpane (.split d k p) (by simp)
          simp [is_pane] at this
      have ih' := ih (fun x hx => hpane x (List.mem_cons_of_mem _ hx))
      simp [trace_split, split_pcts, split_pcts_append, split_pcts_pane_calls, trace_of,
        code_split_pcts, ih', percentage]

theorem send_cwd_good (tgt : String) (cwd : Option String) (s : MState) :
    send_cwd good_oracle tgt cwd s =
      (⟨s.idx + (match cwd with | some p => [BackendCall.send_keys tgt ("cd " ++ p)] | none => []).length,
        s.trace ++ (match cwd with | some p => [BackendCall.send_keys tgt ("cd " ++ p)] | none => [])⟩,
       .ok ()) := by
  cases cwd <;> simp [send_cwd, and_then, run_command, good_oracle]

theorem send_command_good (tgt : String) (cmd : Option String) (s : MState) :
    send_command good_oracle tgt cmd s =
      (⟨s.idx + (match cmd with | some c => [BackendCall.send_keys tgt c] | none => []).length,
        s.trace ++ (match cmd with | some c => [BackendCall.send_keys tgt c] | none => [])⟩,
       .ok ()) := by
  cases cmd <;> simp [send_command, and_then, run_command, good_oracle]

theorem split_window_good (tgt : String) (p : Nat) (dir : SplitDirection) (s : MState) :
    split_window good_oracle tgt p dir s =
      (⟨s.idx + 1, s.trace ++ [.split_window tgt p (dir_flag dir)]⟩, .ok ("s", "w", 1)) := rfl

mutual

theorem apply_good_char (n : LayoutNode) : ∀ (tgt : String) (s : MState),
    apply_layout_recursive good_oracle tgt n s =
      (⟨s.idx + (trace_of tgt n).length, s.trace ++ trace_of tgt n⟩, .ok ()) := by
  intro tgt s
  cases n with
  | pane cwd cmd p =>
    rw [apply_layout_recursive, send_cwd_good, and_then, send_command_good]
    cases cwd <;> cases cmd <;>
      simp [trace_of, pane_calls, List.append_assoc]
  | split dir children p =>
    rw [apply_layout_recursive, trace_of]
    exact apply_split_good_char children dir 100 tgt s

theorem apply_split_good_char (cs : List LayoutNode) :
    ∀ (dir : SplitDirection) (r : Int) (tgt : String) (s : MState),
      apply_split_loop good_oracle dir cs r tgt s =
        (⟨s.idx + (trace_split tgt dir r cs).length, s.trace ++ trace_split tgt dir r cs⟩,
         .ok ()) := by
  intro dir r tgt s
  match cs with
  | [] => simp [apply_split_loop, trace_split]
  | [child] =>
    rw [apply_split_loop, trace_split]
    exact apply_good_char child tgt s
  | child :: next :: rest =>
    have h1 := apply_good_char child tgt
    have h2 := apply_split_good_char (next :: rest) dir (r - (percentage child : Int)) "s:w.1"
    have hs : "s" ++ ":" ++ "w" ++ "." ++ Nat.repr 1 = "s:w.1" := rfl
    simp only [apply_split_loop, split_window_good, and_then, hs, h1, h2, trace_split]
    simp [List.append_assoc, MState.mk.injEq]
    omega

end

/-- C1 counterexample: the claim's percentage formula
`round(((remaining − s_i) / remaining) × 100)` evaluated exactly differs
from what the program computes, because the program evaluates the
expression in `f32` and the division and multiplication are each rounded
to binary32.  For pane children sized `[60, 19, 21]` — positive, summing
to 100, inside the claim's regime — the second split's exact percentage
is `(21/40) · 100 = 52.5`, which rounds half away from zero to `53`; in
`f32`, `21/40` rounds to `0.52499997…`, the product to `52.499996…`, and
the program issues `52`.  The program's percentages are `[40, 52]`; the
claimed formula demands `[40, 53]`. -/
theorem C1_counterexample :
    split_pcts ((apply_layout_recursive good_oracle "t" demo_split_601921 ⟨0, []⟩).1.trace)
      = [40, 52]
    ∧ spec_split_pcts 100 (demo_children_601921.map percentage) = [40, 53]
    ∧ ¬ ((split_pcts ((apply_layout_recursive good_oracle "t" demo_split_601921
          ⟨0, []⟩).1.trace)).map Int.ofNat
        = spec_split_pcts 100 (demo_children_601921.map percentage)) := by
  have h1 : split_pcts ((apply_layout_recursive good_oracle "t" demo_split_601921
      ⟨0, []⟩).1.trace) = [40, 52] := by decide
  have harg1 : ((100 : ℚ) - ((60 : ℕ) : ℚ)) / (100 : ℚ) * 100 = 40 := by norm_num
  have hrem1 : (100 : ℚ) - ((60 : ℕ) : ℚ) = 40 := by norm_num
  have harg2 : ((40 : ℚ) - ((19 : ℕ) : ℚ)) / (40 : ℚ) * 100 = 105 / 2 := by norm_num
  have h40 : rat_round_half_away 40 = 40 := by
    rw [rat_round_half_away, if_pos (by norm_num)]
    rw [Int.floor_eq_iff] <;> norm_num
  have h53 : rat_round_half_away (105 / 2) = 53 := by
    rw [rat_round_half_away, if_pos (by norm_num)]
    rw [Int.floor_eq_iff] <;> norm_num
  have h2 : spec_split_pcts 100 (demo_children_601921.map percentage) = [40, 53] := by
    show spec_split_pcts _ ((60 : ℕ) :: (19 : ℕ) :: (21 : ℕ) :: []) = [40, 53]
    rw [spec_split_pcts, harg1, h40, hrem1, spec_split_pcts, harg2, h53]
    rfl
  refine ⟨h1, h2, ?_⟩
  rw [h1, h2]
  decide

/-- C1 amended: materializing a `Split` node with `n` pane children under
an always-succeeding backend issues exactly `n−1` `split-window` backend
calls, one per child except the last (which is materialized into the
final `current_target` with no split call), and the i-th call's new-pane
percentage is `(((remaining − s_i) / remaining) × 100).round() as u8`
evaluated in `f32` arithmetic — the recurrence `code_split_pcts` — with
`remaining` starting at 100 and decremented by `s_i` after each split.
The `f32` evaluation coincides with the claim's exact
round-half-away-from-zero formula except at double-rounding boundaries
(see the counterexample); at the spec's `[20, 30, 50]` example it yields
the claimed `80` and `63`. -/
theorem C1_split_pane_sequence (dir : SplitDirection) (tgt : String) (cs : List LayoutNode)
    (pct : Nat) (hpane : ∀ c ∈ cs, is_pane c = true) :
    split_pcts ((apply_layout_recursive good_oracle tgt (.split dir cs pct) ⟨0, []⟩).1.trace)
        = code_split_pcts 100 (cs.map percentage)
    ∧ (split_pcts ((apply_layout_recursive good_oracle tgt (.split dir cs pct)
        ⟨0, []⟩).1.trace)).length = cs.length - 1 := by
  have hs : split_pcts ((apply_layout_recursive good_oracle tgt (.split dir cs pct)
      ⟨0, []⟩).1.trace) = code_split_pcts 100 (cs.map percentage) := by
    rw [apply_good_char]
    simp only [List.nil_append, trace_of]
    rw [split_pcts_trace_split cs hpane]
  refine ⟨hs, ?_⟩
  rw [hs, code_split_pcts_length]
  simp

/-- Witness for the amended C1 at the spec's example: children sizes
`[20, 30, 50]` are all panes, and the two `split-window` percentages are
`80` and then `63` (the `f32` evaluation of `62.5` is exact and rounds
half away from zero). -/
theorem C1_split_pane_sequence_witness :
    (∀ c ∈ demo_children_203050, is_pane c = true)
    ∧ (split_pcts ((apply_layout_recursive good_oracle "t:0.0"
          (.split .vertical demo_children_203050 100) ⟨0, []⟩).1.trace)
            = code_split_pcts 100 (demo_children_203050.map percentage)
        ∧ (split_pcts ((apply_layout_recursive good_oracle "t:0.0"
            (.split .vertical demo_children_203050 100) ⟨0, []⟩).1.trace)).length
              = demo_children_203050.length - 1)
    ∧ split_pcts ((apply_layout_recursive good_oracle "t:0.0" demo_split_203050
        ⟨0, []⟩).1.trace) = [80, 63] :=
  ⟨by decide,
   C1_split_pane_sequence .vertical "t:0.0" demo_children_203050 100 (by decide),
   by decide⟩

/-- C2 counterexample: `remaining_pct` is initialized to the hard-coded
literal `100.0`, not to the sum of the children's sizes.  For a split
whose two pane children have sizes `[10, 10]` (sum 20), the code issues a
`split-window` call with percentage `round(((100−10)/100)×100) = 90`,
whereas the claimed sum-initialized recurrence gives
`round(((20−10)/20)×100) = 50`. -/
theorem C2_counterexample :
    split_pcts ((apply_layout_recursive good_oracle "t" demo_split_1010 ⟨0, []⟩).1.trace) = [90]
    ∧ spec_split_pcts (((demo_children_1010.map percentage).sum : ℕ) : ℚ)
        (demo_children_1010.map percentage) = [50]
    ∧ ¬ ((split_pcts ((apply_layout_recursive good_oracle "t" demo_split_1010
          ⟨0, []⟩).1.trace)).map Int.ofNat
        = spec_split_pcts (((demo_children_1010.map percentage).sum : ℕ) : ℚ)
            (demo_children_1010.map percentage)) := by
  have h1 : split_pcts ((apply_layout_recursive good_oracle "t" demo_split_1010
      ⟨0, []⟩).1.trace) = [90] := by decide
  have harg : ((((demo_children_1010.map percentage).sum : ℕ) : ℚ) - ((10 : ℕ) : ℚ))
      / (((demo_children_1010.map percentage).sum : ℕ) : ℚ) * 100 = 50 := by
    norm_num [demo_children_1010, percentage]
  have h2 : spec_split_pcts (((demo_children_1010.map percentage).sum : ℕ) : ℚ)
      (demo_children_1010.map percentage) = [50] := by
    show spec_split_pcts _ (10 :: 10 :: []) = [50]
    rw [spec_split_pcts, harg]
    have hr : rat_round_half_away 50 = 50 := by
      rw [rat_round_half_away, if_pos (by norm_num)]
      rw [Int.floor_eq_iff] <;> norm_num
    rw [hr]
    rfl
  refine ⟨h1, h2, ?_⟩
  rw [h1, h2]
  decide

/-- C2 amended: `remaining` is initialized to the hard-coded value 100,
not to the sum of the children's sizes; since `spawn_preset` verifies
that every split's children's percentages sum to exactly 100 before
materializing, this initialization coincides with the actual sum of the
children's sizes on every preset that reaches materialization, and under
that hypothesis the issued percentages equal the recurrence initialized
at the children's sum, evaluated in the same `f32` arithmetic as the
code. -/
theorem C2_remaining_initialization (dir : SplitDirection) (tgt : String) (cs : List LayoutNode)
    (pct : Nat) (hpane : ∀ c ∈ cs, is_pane c = true)
    (hsum : (cs.map percentage).sum = 100) :
    split_pcts ((apply_layout_recursive good_oracle tgt (.split dir cs pct) ⟨0, []⟩).1.trace)
      = code_split_pcts (((cs.map percentage).sum : ℕ) : ℤ) (cs.map percentage) := by
  rw [apply_good_char]
  simp only [List.nil_append, trace_of]
  rw [split_pcts_trace_split cs hpane, hsum]
  norm_num

/-- Witness for the amended C2 at children sizes `[20, 30, 50]`. -/
theorem C2_remaining_initialization_witness :
    (∀ c ∈ demo_children_203050, is_pane c = true)
    ∧ (demo_children_203050.map percentage).sum = 100
    ∧ split_pcts ((apply_layout_recursive good_oracle "t:0.0"
        (.split .vertical demo_children_203050 100) ⟨0, []⟩).1.trace)
          = code_split_pcts (((demo_children_203050.map percentage).sum : ℕ) : ℤ)
              (demo_children_203050.map percentage) :=
  ⟨by decide, by decide,
   C2_remaining_initialization .vertical "t:0.0" demo_children_203050 100 (by decide)
     (by decide)⟩

/-- C3 counterexample: within one iteration of the split loop, the code
calls `split_window` on `current_target` FIRST and only then recurses
into `current_target` with the child's layout — the opposite of the
claimed recurse-then-split order.  For a split whose first child is a
pane with command `echo hi`, the trace starts with the `split-window`
call and the child's `send-keys` call comes second, whereas the claimed
order would put the `send-keys` call first. -/
theorem C3_counterexample :
    (apply_layout_recursive good_oracle "t" demo_split_cmd ⟨0, []⟩).1.trace =
      [.split_window "t" 50 "-h", .send_keys "t" "echo hi"]
    ∧ (apply_layout_recursive good_oracle "t" demo_split_cmd ⟨0, []⟩).1.trace ≠
      [.send_keys "t" "echo hi", .split_window "t" 50 "-h"] := by
  constructor
  · decide
  · decide

/-- C3 amended: for each non-last child the materializer first calls
`split_pane` on `current_target`, then recurses into `current_target`
(the original pane, which keeps child i's area) using child i's layout,
and then advances `current_target` to the newly created pane for the rest
of the loop: the trace is the split call, followed by the child's calls
into the original target, followed by the remaining children's calls into
the new pane `s:w.1`. -/
theorem C3_split_then_recurse_order (dir : SplitDirection) (tgt : String) (r : Int) (s : MState)
    (child next : LayoutNode) (rest : List LayoutNode) :
    (apply_split_loop good_oracle dir (child :: next :: rest) r tgt s).1.trace =
      s.trace
        ++ [BackendCall.split_window tgt
              (split_percent_f32 r (percentage child : Int)) (dir_flag dir)]
        ++ trace_of tgt child
        ++ trace_split "s:w.1" dir (r - (percentage child : Int)) (next :: rest) := by
  rw [apply_split_good_char]
  simp [trace_split, List.append_assoc]

theorem clean_pure {α : Type} (o : Oracle) (a : α) : Clean o (fun s => (s, .ok a)) := by
  intro s
  refine ⟨le_refl _, ⟨[], by simp, by simp⟩, ?_, ?_⟩
  · intro b _ i h1 h2
    have h2' : i < s.idx := h2
    omega
  · intro e he
    have he' : (Except.ok a : Except String α) = .error e := he
    simp at he'

theorem clean_run_command (o : Oracle) (c : BackendCall) : Clean o (run_command o c) := by
  intro s
  refine ⟨by simp [run_command], ⟨[c], by simp [run_command], by simp [run_command]⟩, ?_, ?_⟩
  · intro a ha i h1 h2
    have ha' : o s.idx = .ok a := ha
    have h2' : i < s.idx + 1 := h2
    have : i = s.idx := by omega
    exact ⟨a, this ▸ ha'⟩
  · intro e he
    have he' : o s.idx = .error e := he
    refine ⟨by simp [run_command], ?_, ?_⟩
    · intro i h1 h2
      have h2' : i + 1 < s.idx + 1 := h2
      omega
    · left
      have hidx : (run_command o c s).1.idx - 1 = s.idx := by simp [run_command]
      rw [hidx]
      exact he'

theorem clean_and_then {α β : Type} {o : Oracle} {f : MState → MState × Except String α}
    {g : α → MState → MState × Except String β} (hf : Clean o f) (hg : ∀ a, Clean o (g a)) :
    Clean o (fun s => and_then (f s) g) := by
  intro s
  obtain ⟨hf1, ⟨df, hdf, hdfl⟩, hf3, hf4⟩ := hf s
  rcases hfs : f s with ⟨s1, r⟩
  rw [hfs] at hf1 hdf hdfl hf3 hf4
  dsimp only at hf1 hdf hdfl hf3 hf4
  cases r with
  | error e =>
    simp only [and_then, hfs]
    refine ⟨hf1, ⟨df, hdf, hdfl⟩, ?_, ?_⟩
    · intro a ha
      simp at ha
    · intro e' he'
      simp only [Except.error.injEq] at he'
      subst he'
      exact hf4 e rfl
  | ok a =>
    obtain ⟨hg1, ⟨dg, hdg, hdgl⟩, hg3, hg4⟩ := hg a s1
    have hfok := hf3 a rfl
    simp only [and_then, hfs]
    refine ⟨le_trans hf1 hg1, ⟨df ++ dg, by rw [hdg, hdf, List.append_assoc], by
      rw [List.length_append]; omega⟩, ?_, ?_⟩
    · intro b hb i h1 h2
      by_cases hi : i < s1.idx
      · exact hfok i h1 hi
      · exact hg3 b hb i (by omega) h2
    · intro e he
      obtain ⟨hg41, hg42, hg43⟩ := hg4 e he
      refine ⟨by omega, ?_, hg43⟩
      intro i h1 h2
      by_cases hi : i < s1.idx
      · exact hfok i h1 hi
      · exact hg42 i (by omega) h2

theorem clean_split_window (o : Oracle) (tgt : String) (p : Nat) (dir : SplitDirection) :
    Clean o (split_window o tgt p dir) := by
  intro s
  simp only [split_window, and_then, run_command]
  rcases hresp : o s.idx with e | out
  · refine ⟨by simp, ⟨[.split_window tgt p (dir_flag dir)], by simp, by simp⟩, ?_, ?_⟩
    · intro a ha
      simp at ha
    · intro e' he'
      simp only [Except.error.injEq] at he'
      subst he'
      exact ⟨by simp, by intro i h1 h2; simp at h2; omega, by left; simpa using hresp⟩
  · rcases h1 : split_once (str_trim out) ':' with _ | ⟨sess, rest⟩
    · simp only [h1]
      refine ⟨by simp, ⟨[.split_window tgt p (dir_flag dir)], by simp, by simp⟩, ?_, ?_⟩
      · intro a ha
        simp at ha
      · intro e' he'
        simp only [Except.error.injEq] at he'
        exact ⟨by simp, by intro i hh1 hh2; simp at hh2; omega, by right; left; exact he'.symm⟩
    · simp only [h1]
      rcases h2 : split_once rest '.' with _ | ⟨win, idxs⟩
      · simp only [h2]
        refine ⟨by simp, ⟨[.split_window tgt p (dir_flag dir)], by simp, by simp⟩, ?_, ?_⟩
        · intro a ha
          simp at ha
        · intro e' he'
          simp only [Except.error.injEq] at he'
          exact ⟨by simp, by intro i hh1 hh2; simp at hh2; omega, by right; left; exact he'.symm⟩
      · simp only [h2]
        rcases h3 : parse_usize idxs with _ | k
        · simp only [h3]
          refine ⟨by simp, ⟨[.split_window tgt p (dir_flag dir)], by simp, by simp⟩, ?_, ?_⟩
          · intro a ha
            simp at ha
          · intro e' he'
            simp only [Except.error.injEq] at he'
            exact ⟨by simp, by intro i hh1 hh2; simp at hh2; omega, by right; right; exact he'.symm⟩
        · simp only [h3]
          refine ⟨by simp, ⟨[.split_window tgt p (dir_flag dir)], by simp, by simp⟩, ?_, ?_⟩
          · intro a _ i hh1 hh2
            have hh2' : i < s.idx + 1 := hh2
            have : i = s.idx := by omega
            exact ⟨out, this ▸ hresp⟩
          · intro e' he'
            simp at he'

theorem clean_send_cwd (o : Oracle) (tgt : String) (cwd : Option String) :
    Clean o (send_cwd o tgt cwd) := by
  cases cwd with
  | none => exact clean_pure o ()
  | some path =>
    exact clean_and_then (clean_run_command o _) (fun _ => clean_pure o ())

theorem clean_send_command (o : Oracle) (tgt : String) (cmd : Option String) :
    Clean o (send_command o tgt cmd) := by
  cases cmd with
  | none => exact clean_pure o ()
  | some c =>
    exact clean_and_then (clean_run_command o _) (fun _ => clean_pure o ())

theorem clean_create_session (o : Oracle) (name : String) :
    Clean o (create_session o name) := by
  have hcs : create_session o name = fun s =>
      if name = "" then and_then (run_command o (.new_session none) s) (fun _ s => (s, .ok ()))
      else and_then (run_command o (.new_session (some name)) s) (fun _ s => (s, .ok ())) := by
    funext s
    rfl
  rw [hcs]
  by_cases h : name = ""
  · simp only [h, if_true]
    exact clean_and_then (clean_run_command o _) (fun _ => clean_pure o ())
  · simp only [h, if_false]
    exact clean_and_then (clean_run_command o _) (fun _ => clean_pure o ())

mutual

theorem clean_apply (o : Oracle) (n : LayoutNode) :
    ∀ (tgt : String), Clean o (fun s => apply_layout_recursive o tgt n s) := by
  intro tgt
  cases n with
  | pane cwd cmd p =>
    exact clean_and_then (clean_send_cwd o tgt cwd) (fun _ => clean_send_command o tgt cmd)
  | split dir children p =>
    exact clean_apply_split o children dir 100 tgt

theorem clean_apply_split (o : Oracle) (cs : List LayoutNode) :
    ∀ (dir : SplitDirection) (r : Int) (tgt : String),
      Clean o (fun s => apply_split_loop o dir cs r tgt s) := by
  intro dir r tgt
  match cs with
  | [] => exact clean_pure o ()
  | [child] => exact clean_apply o child tgt
  | child :: next :: rest =>
    exact clean_and_then (clean_split_window o tgt _ dir)
      (fun addr => clean_and_then (clean_apply o child tgt)
        (fun _ => clean_apply_split o (next :: rest) dir (r - (percentage child : Int))
          (addr.1 ++ ":" ++ addr.2.1 ++ "." ++ Nat.repr addr.2.2)))

end

theorem clean_spawn_windows (o : Oracle) (pname : String) (ws : List Window) :
    ∀ (i : Nat), Clean o (fun s => spawn_windows o pname ws i s) := by
  induction ws with
  | nil => intro i; exact clean_pure o ()
  | cons w rest ih =>
    intro i
    have hstep : Clean o (fun s =>
        if i = 0 then run_command o (.rename_window (pname ++ ":0") w.name) s
        else run_command o (.new_window pname w.name) s) := by
      by_cases h : i = 0 <;> simp only [h, if_true, if_false, reduceIte] <;>
        exact clean_run_command o _
    exact clean_and_then hstep
      (fun _ => clean_and_then (clean_apply o w.layout _) (fun _ => ih (i + 1)))

/-- C6: failure semantics of `spawn_preset`.  For a preset that passes
verification, if any backend call issued during materialization fails,
the materializer aborts: the trace holds exactly one entry per issued
call, every issued call except the last received an `.ok` response from
the backend, no call is issued after the failing one, and the returned
error is the failing call's response (or one of the two fixed messages
with which `split_window` rejects a response it cannot parse). -/
theorem C6_abort_on_error (o : Oracle) (p : Preset) (e : String)
    (hv : verify_preset p = .ok ()) (he : (spawn_preset o p).2 = .error e) :
    (spawn_preset o p).1.trace.length = (spawn_preset o p).1.idx
    ∧ (∀ i, i + 1 < (spawn_preset o p).1.idx → ∃ out, o i = .ok out)
    ∧ (o ((spawn_preset o p).1.idx - 1) = .error e
        ∨ e = "Unexpected output" ∨ e = "Parsing error") := by
  have hclean : Clean o (fun s => and_then (create_session o p.name s)
      (fun _ s => spawn_windows o p.name p.windows 0 s)) :=
    clean_and_then (clean_create_session o p.name)
      (fun _ => clean_spawn_windows o p.name p.windows 0)
  have hspawn : spawn_preset o p = and_then (create_session o p.name ⟨0, []⟩)
      (fun _ s => spawn_windows o p.name p.windows 0 s) := by
    simp only [spawn_preset, hv]
  have hc := hclean ⟨0, []⟩
  simp only at hc
  rw [← hspawn] at hc
  obtain ⟨h1, ⟨d, hd, hdl⟩, h3, h4⟩ := hc
  obtain ⟨h41, h42, h43⟩ := h4 e he
  refine ⟨?_, ?_, h43⟩
  · rw [hd]
    simpa using hdl
  · intro i hi
    exact h42 i (Nat.zero_le i) hi

/-- Witness for C6: a three-child 20/30/50 split whose second
`split-window` call fails.  The backend answers the first three calls
(`new-session`, `rename-window`, the first `split-window`) and fails the
fourth with `boom`: materialization returns exactly that error, the trace
shows exactly one successful `split_pane` side effect (the `80` call)
followed by the failing `63` call, and no backend call after it. -/
theorem C6_abort_on_error_witness :
    verify_preset demo_preset_203050 = .ok ()
    ∧ (spawn_preset failing_oracle demo_preset_203050).2 = .error "boom"
    ∧ ((spawn_preset failing_oracle demo_preset_203050).1.trace.length
          = (spawn_preset failing_oracle demo_preset_203050).1.idx
        ∧ (∀ i, i + 1 < (spawn_preset failing_oracle demo_preset_203050).1.idx →
            ∃ out, failing_oracle i = .ok out)
        ∧ (failing_oracle ((spawn_preset failing_oracle demo_preset_203050).1.idx - 1)
              = .error "boom"
            ∨ "boom" = "Unexpected output" ∨ "boom" = "Parsing error"))
    ∧ (spawn_preset failing_oracle demo_preset_203050).1.trace =
        [.new_session (some "p"), .rename_window "p:0" "w",
         .split_window "p:w.0" 80 "-v", .split_window "s:w.1" 63 "-v"] :=
  ⟨rfl, rfl, C6_abort_on_error failing_oracle demo_preset_203050 "boom" rfl rfl, by decide⟩

mutual

theorem verify_error_sound (n : LayoutNode) :
    ∀ e, verify_layout_recursive n = .error e →
      ∃ ps ∈ split_lists n, u8_sum ps ≠ 100 ∧ e = percent_msg ps (u8_sum ps) := by
  intro e he
  cases n with
  | pane cwd cmd p => simp [verify_layout_recursive] at he
  | split dir children p =>
    rw [verify_layout_recursive] at he
    by_cases hsum : u8_sum (children.map percentage) ≠ 100
    · rw [if_pos hsum] at he
      simp only [Except.error.injEq] at he
      exact ⟨children.map percentage, by simp [split_lists], hsum, he.symm⟩
    · rw [if_neg hsum] at he
      obtain ⟨ps, hmem, hne, hmsg⟩ := verify_children_error_sound children e he
      exact ⟨ps, by simp [split_lists]; right; exact hmem, hne, hmsg⟩

theorem verify_children_error_sound (cs : List LayoutNode) :
    ∀ e, verify_children cs = .error e →
      ∃ ps ∈ split_lists_l cs, u8_sum ps ≠ 100 ∧ e = percent_msg ps (u8_sum ps) := by
  intro e he
  cases cs with
  | nil => simp [verify_children] at he
  | cons c rest =>
    rw [verify_children] at he
    rcases hc : verify_layout_recursive c with e' | u
    · rw [hc] at he
      simp only [Except.error.injEq] at he
      subst he
      obtain ⟨ps, hmem, hne, hmsg⟩ := verify_error_sound c e' hc
      exact ⟨ps, by simp [split_lists_l]; left; exact hmem, hne, hmsg⟩
    · rw [hc] at he
      obtain ⟨ps, hmem, hne, hmsg⟩ := verify_children_error_sound rest e he
      exact ⟨ps, by simp [split_lists_l]; right; exact hmem, hne, hmsg⟩

end

mutual

theorem verify_ok_sound (n : LayoutNode) :
    ∀ u, verify_layout_recursive n = .ok u →
      ∀ ps ∈ split_lists n, u8_sum ps = 100 := by
  intro u hu ps hps
  cases n with
  | pane cwd cmd p => simp [split_lists] at hps
  | split dir children p =>
    rw [verify_layout_recursive] at hu
    by_cases hsum : u8_sum (children.map percentage) ≠ 100
    · rw [if_pos hsum] at hu
      simp at hu
    · rw [if_neg hsum] at hu
      rw [split_lists] at hps
      rcases List.mem_cons.mp hps with h | h
      · subst h
        omega
      · exact verify_children_ok_sound children u hu ps h

theorem verify_children_ok_sound (cs : List LayoutNode) :
    ∀ u, verify_children cs = .ok u →
      ∀ ps ∈ split_lists_l cs, u8_sum ps = 100 := by
  intro u hu ps hps
  cases cs with
  | nil => simp [split_lists_l] at hps
  | cons c rest =>
    rw [verify_children] at hu
    rcases hc : verify_layout_recursive c with e' | u'
    · rw [hc] at hu
      simp at hu
    · rw [hc] at hu
      rw [split_lists_l] at hps
      rcases List.mem_append.mp hps with h | h
      · exact verify_ok_sound c u' hc ps h
      · exact verify_children_ok_sound rest u hu ps h

end

theorem verify_windows_error_sound (ws : List Window) :
    ∀ e, verify_preset.verify_windows ws = .error e →
      ∃ ps ∈ (ws.map (fun w => split_lists w.layout)).flatten,
        u8_sum ps ≠ 100 ∧ e = percent_msg ps (u8_sum ps) := by
  induction ws with
  | nil => intro e he; simp [verify_preset.verify_windows] at he
  | cons w rest ih =>
    intro e he
    rw [verify_preset.verify_windows] at he
    rcases hw : verify_layout_recursive w.layout with e' | u
    · rw [hw] at he
      simp only [Except.error.injEq] at he
      subst he
      obtain ⟨ps, hmem, hne, hmsg⟩ := verify_error_sound w.layout e' hw
      exact ⟨ps, by simp; left; exact hmem, hne, hmsg⟩
    · rw [hw] at he
      obtain ⟨ps, hmem, hne, hmsg⟩ := ih e he
      have hm : ps ∈ ((w :: rest).map (fun w => split_lists w.layout)).flatten := by
        simp only [List.map_cons, List.flatten_cons]
        exact List.mem_append_right _ hmem
      exact ⟨ps, hm, hne, hmsg⟩

theorem verify_windows_ok_sound (ws : List Window) :
    ∀ u, verify_preset.verify_windows ws = .ok u →
      ∀ ps ∈ (ws.map (fun w => split_lists w.layout)).flatten, u8_sum ps = 100 := by
  induction ws with
  | nil => intro u hu ps hps; simp at hps
  | cons w rest ih =>
    intro u hu ps hps
    rw [verify_preset.verify_windows] at hu
    rcases hw : verify_layout_recursive w.layout with e' | u'
    · rw [hw] at hu
      simp at hu
    · rw [hw] at hu
      simp only [List.map_cons, List.flatten_cons] at hps
      rcases List.mem_append.mp hps with h | h
      · exact verify_ok_sound w.layout u' hw ps h
      · exact ih u hu ps (by simpa using h)

/-- C9 amended: `spawn_preset` validates the preset before issuing any
backend call, but `verify_layout_recursive` sums the children's
percentages as a wrapping `u8`: whenever some split's percentages do not
sum to 100 *modulo 256*, `spawn_preset` returns the verifier's error —
naming the offending percentages and their (wrapped) sum — with zero
backend invocations (empty trace, no calls counted). -/
theorem C9_validation_before_spawn (o : Oracle) (p : Preset)
    (h : ∃ ps ∈ preset_split_lists p, u8_sum ps ≠ 100) :
    ∃ e, spawn_preset o p = (⟨0, []⟩, .error e)
      ∧ ∃ ps ∈ preset_split_lists p, u8_sum ps ≠ 100 ∧ e = percent_msg ps (u8_sum ps) := by
  rcases hv : verify_preset p with e | u
  · refine ⟨e, by simp only [spawn_preset, hv], ?_⟩
    rw [verify_preset] at hv
    exact verify_windows_error_sound p.windows e hv
  · exfalso
    obtain ⟨ps, hmem, hne⟩ := h
    rw [verify_preset] at hv
    exact hne (verify_windows_ok_sound p.windows u hv ps hmem)

/-- Witness for the amended C9: a preset whose only split has
percentages `[20, 30]` (sum 50) is rejected before any backend call, with
the verifier's message naming the percentages. -/
theorem C9_validation_before_spawn_witness :
    (∃ ps ∈ preset_split_lists demo_preset_bad_sum, u8_sum ps ≠ 100)
    ∧ (∃ e, spawn_preset good_oracle demo_preset_bad_sum = (⟨0, []⟩, .error e)
        ∧ ∃ ps ∈ preset_split_lists demo_preset_bad_sum,
            u8_sum ps ≠ 100 ∧ e = percent_msg ps (u8_sum ps))
    ∧ spawn_preset good_oracle demo_preset_bad_sum
        = (⟨0, []⟩, .error "Percentages [20, 30] add up to 50, expected 100.") :=
  ⟨by decide, C9_validation_before_spawn good_oracle demo_preset_bad_sum (by decide), by rfl⟩

/-- C9 counterexample: the validation sums percentages in wrapping `u8`
arithmetic, so a split with percentages `[200, 156]` — whose true sum 356
is not 100 — passes verification (356 wraps to 100) and `spawn_preset`
proceeds to issue backend calls instead of returning an error with zero
backend invocations, contradicting the claim as stated. -/
theorem C9_counterexample :
    (200 + 156 ≠ 100)
    ∧ verify_preset demo_preset_wrap = .ok ()
    ∧ (spawn_preset good_oracle demo_preset_wrap).2 = .ok ()
    ∧ (spawn_preset good_oracle demo_preset_wrap).1.trace ≠ [] :=
  ⟨by decide, rfl, rfl, by decide⟩

end Tmux

namespace Parser

/-- C10: the parser does not validate that an explicit `size` attribute
lies in 0–100: `as u8` keeps the low 8 bits, so a `pane` node declaring
any integer `size` is accepted and stored as `size mod 256`. -/
theorem C10_size_narrowed_mod_256 (entries : List (String × KdlValue))
    (ch : Option (List KdlNode)) (parent_cwd : String) (z : Int)
    (h : lookup_entry "size" entries = some (.int z)) :
    ∃ cwd cmd, parse_node_recursive (.mk "pane" entries ch) parent_cwd =
      .ok (.pane cwd cmd ((z % 256).toNat)) := by
  refine ⟨((lookup_entry "cwd" entries).bind KdlValue.as_string).getD parent_cwd,
    (lookup_entry "command" entries).bind KdlValue.as_string, ?_⟩
  rw [parse_node_recursive.eq_def]
  dsimp only
  rw [if_pos rfl, h]
  rfl

/-- Witness for C10: `size=300` is accepted and stored as `44`. -/
theorem C10_size_narrowed_mod_256_witness :
    lookup_entry "size" (KdlNode.entries demo_pane_300) = some (.int 300)
    ∧ (∃ cwd cmd, parse_node_recursive demo_pane_300 "~" =
        .ok (.pane cwd cmd (((300 : Int) % 256).toNat)))
    ∧ parse_node_recursive demo_pane_300 "~" = .ok (.pane "~" none 44) :=
  ⟨rfl, C10_size_narrowed_mod_256 [("size", .int 300)] none "~" 300 rfl, rfl⟩

/-- C7: an unrecognized node name where a window/split body expects a
`pane` or `split` node is a parse error naming the offending node; a
session-body node that is not a `window` makes `parse_windows_loop` fail
with an error naming it, and any such node anywhere in a session body
makes the whole window loop fail; a `split` node with zero children (no
child block, or an empty one) fails parsing; and a config whose window
body — or whose session body — holds `foo {}` makes `parse_config`
return an error naming `foo`, so no preset map is produced. -/
theorem C7_unrecognized_and_empty_split :
    (∀ (n : KdlNode) (cwd : String), n.name ≠ "pane" → n.name ≠ "split" →
        parse_node_recursive n cwd = .error ("Unexpected node: `" ++ n.name ++ "`")
        ∧ str_contains ("Unexpected node: `" ++ n.name ++ "`") n.name)
    ∧ (∀ (w : KdlNode) (rest : List KdlNode) (cwd : String) (i : Nat), w.name ≠ "window" →
        parse_windows_loop cwd (w :: rest) i =
            .error ("Unknown session child node: `" ++ w.name ++ "`")
        ∧ str_contains ("Unknown session child node: `" ++ w.name ++ "`") w.name)
    ∧ (∀ (ws : List KdlNode) (cwd : String), (∃ w ∈ ws, w.name ≠ "window") →
        ∀ i, ∃ e, parse_windows_loop cwd ws i = .error e)
    ∧ (∀ (n : KdlNode) (cwd : String), n.name = "split" →
        (n.children = none ∨ n.children = some []) →
        ∃ e, parse_node_recursive n cwd = .error e)
    ∧ (parse_config [demo_session_foo] = .error "Unexpected node: `foo`"
        ∧ str_contains "Unexpected node: `foo`" "foo")
    ∧ (parse_config [demo_session_child_foo]
          = .error "Unknown session child node: `foo`"
        ∧ str_contains "Unknown session child node: `foo`" "foo") := by
  refine ⟨?_, ?_, ?_, ?_, ⟨rfl, "Unexpected node: `", "`", by decide⟩,
    ⟨rfl, "Unknown session child node: `", "`", by decide⟩⟩
  · intro n cwd h1 h2
    obtain ⟨nm, es, ch⟩ := n
    have h1' : nm ≠ "pane" := h1
    have h2' : nm ≠ "split" := h2
    rw [parse_node_recursive.eq_def]
    dsimp only
    rw [if_neg h1', if_neg h2']
    exact ⟨rfl, "Unexpected node: `", "`", rfl⟩
  · intro w rest cwd i hw
    refine ⟨?_, "Unknown session child node: `", "`", rfl⟩
    rw [parse_windows_loop, if_pos hw]
  · intro ws cwd
    induction ws with
    | nil =>
      intro hex i
      simp at hex
    | cons w rest ih =>
      intro hex i
      by_cases hw : w.name = "window"
      · have hex' : ∃ w' ∈ rest, w'.name ≠ "window" := by
          obtain ⟨w', hmem, hne⟩ := hex
          rcases List.mem_cons.mp hmem with h | h
          · subst h
            exact absurd hw hne
          · exact ⟨w', h, hne⟩
        rw [parse_windows_loop, if_neg (by simpa using hw)]
        dsimp only
        rcases hp : (match w.children with
            | some window_children => parse_panes window_children
                (((w.get "cwd").bind KdlValue.as_string).getD cwd)
            | none => .ok (.pane (((w.get "cwd").bind KdlValue.as_string).getD cwd) none 100))
          with e | layout
        · rw [hp]
          exact ⟨e, rfl⟩
        · rw [hp]
          obtain ⟨e, he⟩ := ih hex' (i + 1)
          rw [he]
          exact ⟨e, rfl⟩
      · rw [parse_windows_loop, if_pos hw]
        exact ⟨_, rfl⟩
  · intro n cwd h1 h2
    obtain ⟨nm, es, ch⟩ := n
    have h1' : nm = "split" := h1
    subst h1'
    rw [parse_node_recursive.eq_def]
    dsimp only
    rw [if_neg (by decide), if_pos rfl]
    rcases hd : parse_direction (.mk "split" es ch) with e | d
    · exact ⟨e, rfl⟩
    · rcases h2 with h2 | h2
      · have hch : ch = none := h2
        subst hch
        exact ⟨"Split nodes must contain children", rfl⟩
      · have hch : ch = some [] := h2
        subst hch
        exact ⟨"Split nodes must contain children", rfl⟩

/-- Witness for C7: a `foo` node is rejected where a pane/split is
expected and where a `window` is expected, the errors containing `foo`;
an empty split is rejected; and both end-to-end documents (the `foo` in a
window body, the `foo` in a session body) fail `parse_config`. -/
theorem C7_unrecognized_and_empty_split_witness :
    (parse_node_recursive (.mk "foo" [] (some [])) "~" = .error "Unexpected node: `foo`"
      ∧ str_contains "Unexpected node: `foo`" "foo")
    ∧ (parse_windows_loop "~" [.mk "foo" [] (some [])] 0
          = .error "Unknown session child node: `foo`"
        ∧ str_contains "Unknown session child node: `foo`" "foo")
    ∧ (∃ e, parse_windows_loop "~" [.mk "foo" [] (some [])] 0 = .error e)
    ∧ (∃ e, parse_node_recursive (.mk "split" [] (some [])) "~" = .error e)
    ∧ (parse_config [demo_session_foo] = .error "Unexpected node: `foo`"
        ∧ str_contains "Unexpected node: `foo`" "foo")
    ∧ (parse_config [demo_session_child_foo]
          = .error "Unknown session child node: `foo`"
        ∧ str_contains "Unknown session child node: `foo`" "foo") :=
  ⟨C7_unrecognized_and_empty_split.1 (.mk "foo" [] (some [])) "~" (by decide) (by decide),
   C7_unrecognized_and_empty_split.2.1 (.mk "foo" [] (some [])) [] "~" 0 (by decide),
   C7_unrecognized_and_empty_split.2.2.1 [.mk "foo" [] (some [])] "~"
     ⟨.mk "foo" [] (some []), List.mem_singleton.mpr rfl, by decide⟩ 0,
   C7_unrecognized_and_empty_split.2.2.2.1 (.mk "split" [] (some [])) "~" rfl (.inr rfl),
   C7_unrecognized_and_empty_split.2.2.2.2.1,
   C7_unrecognized_and_empty_split.2.2.2.2.2⟩

theorem node_size_set_size (n : LayoutNode) (v : Nat) : node_size (set_size n v) = v := by
  cases n <;> rfl

theorem parse_panes_size (l : List KdlNode) (cwd : String) (n : LayoutNode)
    (h : parse_panes l cwd = .ok n) : node_size n = 100 := by
  match l with
  | [] =>
    rw [parse_panes] at h
    simp only [Except.ok.injEq] at h
    subst h
    rfl
  | [root] =>
    rw [parse_panes] at h
    rcases hr : parse_node_recursive root cwd with e | rn
    · rw [hr] at h
      simp at h
    · rw [hr] at h
      simp only [Except.ok.injEq] at h
      subst h
      exact node_size_set_size rn 100
  | _ :: _ :: _ =>
    rw [parse_panes] at h
    simp at h

theorem parse_windows_loop_sizes (ws : List KdlNode) (cwd : String) :
    ∀ (i : Nat) (ret : List Window), parse_windows_loop cwd ws i = .ok ret →
      ∀ w ∈ ret, node_size w.layout = 100 := by
  induction ws with
  | nil =>
    intro i ret h w hw
    rw [parse_windows_loop] at h
    simp only [Except.ok.injEq] at h
    subst h
    simp at hw
  | cons window rest ih =>
    intro i ret h w hw
    rw [parse_windows_loop] at h
    by_cases hn : window.name = "window"
    · rw [if_neg (by simpa using hn)] at h
      dsimp only at h
      rcases hp : (match window.children with
          | some window_children => parse_panes window_children
              (((window.get "cwd").bind KdlValue.as_string).getD cwd)
          | none => .ok (.pane (((window.get "cwd").bind KdlValue.as_string).getD cwd) none 100)) with
        e | layout
      · rw [hp] at h
        simp at h
      · rw [hp] at h
        rcases hrest : parse_windows_loop cwd rest (i + 1) with e | ret'
        · rw [hrest] at h
          simp at h
        · rw [hrest] at h
          simp only [Except.ok.injEq] at h
          subst h
          rcases List.mem_cons.mp hw with hw | hw
          · subst hw
            rcases hc : window.children with _ | kids
            · rw [hc] at hp
              simp only [Except.ok.injEq] at hp
              subst hp
              rfl
            · rw [hc] at hp
              exact parse_panes_size kids _ layout hp
          · exact ih (i + 1) ret' hrest w hw
    · rw [if_pos (by simpa using hn)] at h
      simp at h

theorem parse_windows_sizes (ws : List KdlNode) (cwd : String) (ret : List Window)
    (h : parse_windows ws cwd = .ok ret) : ∀ w ∈ ret, node_size w.layout = 100 := by
  rw [parse_windows] at h
  by_cases he : ws.isEmpty
  · rw [if_pos he] at h
    simp only [Except.ok.injEq] at h
    subst h
    intro w hw
    simp only [List.mem_singleton] at hw
    subst hw
    rfl
  · rw [if_neg he] at h
    rcases hl : parse_windows_loop cwd ws 0 with e | ret'
    · rw [hl] at h
      simp at h
    · rw [hl] at h
      simp only [Except.ok.injEq] at h
      subst h
      by_cases hre : ret'.isEmpty
      · rw [if_pos hre]
        intro w hw
        simp only [List.mem_singleton] at hw
        subst hw
        rfl
      · rw [if_neg hre]
        exact parse_windows_loop_sizes ws cwd 0 ret' hl

theorem parse_session_sizes (node : KdlNode) (p : Preset) (h : parse_session node = .ok p) :
    ∀ w ∈ p.windows, node_size w.layout = 100 := by
  rw [parse_session] at h
  by_cases hn : node.name = "session"
  · rw [if_neg (by simpa using hn)] at h
    rcases hname : (node.get "name").bind KdlValue.as_string with _ | nm
    · rw [hname] at h
      simp at h
    · rw [hname] at h
      dsimp only at h
      rcases hw : (match node.children with
          | some session_children => parse_windows session_children
              (((node.get "cwd").bind KdlValue.as_string).getD "~")
          | none => .ok [⟨"main", ((node.get "cwd").bind KdlValue.as_string).getD "~",
              .pane (((node.get "cwd").bind KdlValue.as_string).getD "~") none 100⟩]) with
        e | ws
      · rw [hw] at h
        simp at h
      · rw [hw] at h
        simp only [Except.ok.injEq] at h
        subst h
        rcases hc : node.children with _ | kids
        · rw [hc] at hw
          simp only [Except.ok.injEq] at hw
          subst hw
          intro w hwm
          simp only [List.mem_singleton] at hwm
          subst hwm
          rfl
        · rw [hc] at hw
          exact parse_windows_sizes kids _ ws hw
  · rw [if_pos (by simpa using hn)] at h
    simp at h

theorem insert_sorted_mem (k : String) (v : Preset) (l : List (String × Preset))
    (x : String × Preset) (hx : x ∈ insert_sorted k v l) : x = (k, v) ∨ x ∈ l := by
  induction l with
  | nil =>
    rw [insert_sorted] at hx
    simp only [List.mem_singleton] at hx
    exact .inl hx
  | cons hd tl ih =>
    obtain ⟨k', v'⟩ := hd
    rw [insert_sorted] at hx
    by_cases h1 : str_lt k k' = true
    · rw [if_pos h1] at hx
      rcases List.mem_cons.mp hx with h | h
      · exact .inl h
      · exact .inr h
    · rw [if_neg h1] at hx
      by_cases h2 : k = k'
      · rw [if_pos h2] at hx
        rcases List.mem_cons.mp hx with h | h
        · exact .inl h
        · exact .inr (List.mem_cons_of_mem _ h)
      · rw [if_neg h2] at hx
        rcases List.mem_cons.mp hx with h | h
        · exact .inr (h ▸ List.mem_cons_self _ _)
        · rcases ih h with h' | h'
          · exact .inl h'
          · exact .inr (List.mem_cons_of_mem _ h')

theorem parse_config_loop_sizes (nodes : List KdlNode) :
    ∀ (acc m : List (String × Preset)), parse_config_loop nodes acc = .ok m →
      (∀ kv ∈ acc, ∀ w ∈ kv.2.windows, node_size w.layout = 100) →
      ∀ kv ∈ m, ∀ w ∈ kv.2.windows, node_size w.layout = 100 := by
  induction nodes with
  | nil =>
    intro acc m h hacc
    rw [parse_config_loop] at h
    simp only [Except.ok.injEq] at h
    subst h
    exact hacc
  | cons node rest ih =>
    intro acc m h hacc
    rw [parse_config_loop] at h
    rcases hp : parse_session node with e | preset
    · rw [hp] at h
      simp at h
    · rw [hp] at h
      refine ih _ m h ?_
      intro kv hkv
      rcases insert_sorted_mem preset.name preset acc kv hkv with h' | h'
      · subst h'
        exact parse_session_sizes node preset hp
      · exact hacc kv h'

/-- C5: after parsing succeeds, the root layout node of every window of
every preset in the returned map has `size = 100` — whether forced by the
root override of `parse_panes` or built directly by the defaulted
single-pane layouts for empty session/window bodies. -/
theorem C5_root_size_always_100 (nodes : List KdlNode) (m : List (String × Preset))
    (h : parse_config nodes = .ok m) :
    ∀ kv ∈ m, ∀ w ∈ kv.2.windows, node_size w.layout = 100 := by
  rw [parse_config] at h
  exact parse_config_loop_sizes nodes [] m h (by intro kv hkv; simp at hkv)

/-- Witness for C5 on a session whose window holds a split (explicit
root size handling) — every window of the parsed preset has a size-100
root. -/
theorem C5_root_size_always_100_witness :
    parse_config [demo_session_split] = .ok [("s", demo_preset_split)]
    ∧ (∀ kv ∈ [("s", demo_preset_split)], ∀ w ∈ kv.2.windows, node_size w.layout = 100) :=
  ⟨rfl, C5_root_size_always_100 [demo_session_split] [("s", demo_preset_split)] rfl⟩

theorem chars_lt_trans : ∀ (a b c : List Char), chars_lt a b = true → chars_lt b c = true →
    chars_lt a c = true := by
  intro a
  induction a with
  | nil =>
    intro b c hab hbc
    cases b with
    | nil => simp [chars_lt] at hab
    | cons y ys =>
      cases c with
      | nil => simp [chars_lt] at hbc
      | cons z zs => simp [chars_lt]
  | cons x xs ih =>
    intro b c hab hbc
    cases b with
    | nil => simp [chars_lt] at hab
    | cons y ys =>
      cases c with
      | nil => simp [chars_lt] at hbc
      | cons z zs =>
        rw [chars_lt] at hab hbc ⊢
        by_cases hxy : x < y
        · by_cases hyz : y < z
          · rw [if_pos (lt_trans hxy hyz)]
          · by_cases hzy : z < y
            · rw [if_neg hyz, if_pos hzy] at hbc
              simp at hbc
            · have hy : y = z := le_antisymm (not_lt.mp hzy) (not_lt.mp hyz)
              subst hy
              rw [if_pos hxy]
        · by_cases hyx : y < x
          · rw [if_neg hxy, if_pos hyx] at hab
            simp at hab
          · have hx : x = y := le_antisymm (not_lt.mp hyx) (not_lt.mp hxy)
            subst hx
            rw [if_neg hxy, if_neg hyx] at hab
            by_cases hxz : x < z
            · rw [if_pos hxz]
            · by_cases hzx : z < x
              · rw [if_neg hxz, if_pos hzx] at hbc
                simp at hbc
              · have hz : x = z := le_antisymm (not_lt.mp hzx) (not_lt.mp hxz)
                subst hz
                rw [if_neg hxz, if_neg hzx] at hbc ⊢
                exact ih ys zs hab hbc

theorem chars_lt_total : ∀ (a b : List Char), a = b ∨ chars_lt a b = true ∨ chars_lt b a = true := by
  intro a
  induction a with
  | nil =>
    intro b
    cases b with
    | nil => exact .inl rfl
    | cons y ys => exact .inr (.inl (by simp [chars_lt]))
  | cons x xs ih =>
    intro b
    cases b with
    | nil => exact .inr (.inr (by simp [chars_lt]))
    | cons y ys =>
      rcases lt_trichotomy x y with h | h | h
      · exact .inr (.inl (by rw [chars_lt, if_pos h]))
      · subst h
        rcases ih ys with h' | h' | h'
        · exact .inl (by rw [h'])
        · exact .inr (.inl (by rw [chars_lt, if_neg (lt_irrefl x), if_neg (lt_irrefl x)]; exact h'))
        · exact .inr (.inr (by rw [chars_lt, if_neg (lt_irrefl x), if_neg (lt_irrefl x)]; exact h'))
      · exact .inr (.inr (by rw [chars_lt, if_pos h]))

theorem str_lt_trans (a b c : String) (hab : str_lt a b = true) (hbc : str_lt b c = true) :
    str_lt a c = true :=
  chars_lt_trans a.data b.data c.data hab hbc

theorem str_lt_total (a b : String) (h : a ≠ b) :
    str_lt a b = true ∨ str_lt b a = true := by
  rcases chars_lt_total a.data b.data with h' | h' | h'
  · exfalso
    apply h
    cases a
    cases b
    exact congrArg String.mk (by simpa using h')
  · exact .inl h'
  · exact .inr h'

theorem map_find_insert (k k' : String) (v : Preset) (l : List (String × Preset)) :
    map_find k' (insert_sorted k v l) = if k = k' then some v else map_find k' l := by
  induction l with
  | nil => simp [insert_sorted, map_find]
  | cons hd tl ih =>
    obtain ⟨k0, v0⟩ := hd
    rw [insert_sorted]
    by_cases h1 : str_lt k k0 = true
    · rw [if_pos h1]
      rfl
    · rw [if_neg h1]
      by_cases h2 : k = k0
      · subst h2
        rw [if_pos rfl]
        by_cases h3 : k = k'
        · simp [map_find, h3]
        · simp [map_find, h3]
      · rw [if_neg h2]
        by_cases h3 : k0 = k'
        · have h4 : k ≠ k' := fun he => h2 (he.trans h3.symm)
          simp [map_find, h3, h4]
        · simp [map_find, h3, ih]

theorem parse_config_loop_find (nodes : List KdlNode) :
    ∀ (acc m : List (String × Preset)), parse_config_loop nodes acc = .ok m → ∀ k,
      map_find k m = nodes.foldl (fun r n =>
        match parse_session n with
        | .ok p => if p.name = k then some p else r
        | .error _ => r) (map_find k acc) := by
  induction nodes with
  | nil =>
    intro acc m h k
    rw [parse_config_loop] at h
    simp only [Except.ok.injEq] at h
    subst h
    rfl
  | cons node rest ih =>
    intro acc m h k
    rw [parse_config_loop] at h
    rcases hp : parse_session node with e | preset
    · rw [hp] at h
      simp at h
    · rw [hp] at h
      rw [List.foldl_cons]
      have hstep : (match parse_session node with
          | .ok p => if p.name = k then some p else map_find k acc
          | .error _ => map_find k acc) = if preset.name = k then some preset else map_find k acc := by
        rw [hp]
      rw [hstep, ← map_find_insert preset.name k preset acc]
      exact ih _ m h k

theorem insert_sorted_pairwise (k : String) (v : Preset) (l : List (String × Preset))
    (hl : List.Pairwise (fun a b => str_lt a.1 b.1 = true) l) :
    List.Pairwise (fun a b => str_lt a.1 b.1 = true) (insert_sorted k v l) := by
  induction l with
  | nil => simp [insert_sorted]
  | cons hd tl ih =>
    obtain ⟨k0, v0⟩ := hd
    rw [List.pairwise_cons] at hl
    obtain ⟨hhead, htl⟩ := hl
    rw [insert_sorted]
    by_cases h1 : str_lt k k0 = true
    · rw [if_pos h1]
      rw [List.pairwise_cons]
      refine ⟨?_, List.pairwise_cons.mpr ⟨hhead, htl⟩⟩
      intro y hy
      rcases List.mem_cons.mp hy with h | h
      · subst h
        exact h1
      · exact str_lt_trans k k0 y.1 h1 (hhead y h)
    · rw [if_neg h1]
      by_cases h2 : k = k0
      · rw [if_pos h2]
        rw [List.pairwise_cons]
        refine ⟨?_, htl⟩
        intro y hy
        exact h2 ▸ hhead y hy
      · rw [if_neg h2]
        rw [List.pairwise_cons]
        refine ⟨?_, ih htl⟩
        intro y hy
        rcases insert_sorted_mem k v tl y hy with h | h
        · subst h
          rcases str_lt_total k k0 h2 with h' | h'
          · exact absurd h' h1
          · exact h'
        · exact hhead y h

theorem parse_config_loop_pairwise (nodes : List KdlNode) :
    ∀ (acc m : List (String × Preset)), parse_config_loop nodes acc = .ok m →
      List.Pairwise (fun a b => str_lt a.1 b.1 = true) acc →
      List.Pairwise (fun a b => str_lt a.1 b.1 = true) m := by
  induction nodes with
  | nil =>
    intro acc m h hacc
    rw [parse_config_loop] at h
    simp only [Except.ok.injEq] at h
    subst h
    exact hacc
  | cons node rest ih =>
    intro acc m h hacc
    rw [parse_config_loop] at h
    rcases hp : parse_session node with e | preset
    · rw [hp] at h
      simp at h
    · rw [hp] at h
      exact ih _ m h (insert_sorted_pairwise preset.name preset acc hacc)

/-- C8: `parse_config` returns a name-keyed map in which a later
`session` node with a duplicate name silently replaces the earlier one —
looking up any name yields the preset of the last session node declaring
it — and the map's entries stand in strictly ascending name order (the
byte-wise string order under which `BTreeMap` iterates), so iteration is
deterministic. -/
theorem C8_last_wins_and_sorted (nodes : List KdlNode) (m : List (String × Preset))
    (h : parse_config nodes = .ok m) :
    List.Pairwise (fun a b => str_lt a.1 b.1 = true) m
    ∧ ∀ k, map_find k m = nodes.foldl (fun r n =>
        match parse_session n with
        | .ok p => if p.name = k then some p else r
        | .error _ => r) none := by
  rw [parse_config] at h
  exact ⟨parse_config_loop_pairwise nodes [] m h (by simp),
    fun k => parse_config_loop_find nodes [] m h k⟩

/-- Witness for C8: two sessions named `x` (the later with cwd `~/c`)
and one named `b`: the map comes back in ascending name order and the
lookup of `x` returns the later session's preset. -/
theorem C8_last_wins_and_sorted_witness :
    parse_config [session_node "x" "~/a", session_node "b" "~", session_node "x" "~/c"] =
      .ok [("b", ⟨"b", "~", [⟨"main", "~", .pane "~" none 100⟩], false⟩),
           ("x", ⟨"x", "~/c", [⟨"main", "~/c", .pane "~/c" none 100⟩], false⟩)]
    ∧ (List.Pairwise (fun a b => str_lt a.1 b.1 = true)
          [(("b" : String), (⟨"b", "~", [⟨"main", "~", .pane "~" none 100⟩], false⟩ : Preset)),
           (("x" : String), (⟨"x", "~/c", [⟨"main", "~/c", .pane "~/c" none 100⟩], false⟩ : Preset))]
        ∧ ∀ k, map_find k
            [(("b" : String), (⟨"b", "~", [⟨"main", "~", .pane "~" none 100⟩], false⟩ : Preset)),
             (("x" : String), (⟨"x", "~/c", [⟨"main", "~/c", .pane "~/c" none 100⟩], false⟩ : Preset))]
          = [session_node "x" "~/a", session_node "b" "~", session_node "x" "~/c"].foldl
              (fun r n => match parse_session n with
                | .ok p => if p.name = k then some p else r
                | .error _ => r) none)
    ∧ map_find "x"
        [(("b" : String), (⟨"b", "~", [⟨"main", "~", .pane "~" none 100⟩], false⟩ : Preset)),
         (("x" : String), (⟨"x", "~/c", [⟨"main", "~/c", .pane "~/c" none 100⟩], false⟩ : Preset))]
        = some ⟨"x", "~/c", [⟨"main", "~/c", .pane "~/c" none 100⟩], false⟩ :=
  ⟨rfl,
   C8_last_wins_and_sorted [session_node "x" "~/a", session_node "b" "~", session_node "x" "~/c"]
     _ rfl,
   rfl⟩

theorem parse_split_kids_ok (ns : List KdlNode) (cwd : String)
    (h : ∀ n ∈ ns, except_is_ok (parse_node_recursive n cwd) = true) :
    ∀ i, ∃ kids0, parse_split_kids cwd ns i =
        .ok (kids0, (explicit_sizes ns).sum % 256, missing_idx ns i)
      ∧ kids0.length = ns.length
      ∧ (∀ (j : Nat) (n : KdlNode), ns[j]? = some n →
          ∃ c0, parse_node_recursive n cwd = .ok c0 ∧
            kids0[j]? = some (match get_size_int n with
              | some p => set_size c0 (as_u8 p)
              | none => c0)) := by
  induction ns with
  | nil =>
    intro i
    refine ⟨[], ?_, rfl, ?_⟩
    · rw [parse_split_kids]
      rfl
    · intro j n hj
      simp at hj
  | cons n rest ih =>
    intro i
    rcases hp : parse_node_recursive n cwd with e | c0
    · exfalso
      have hh := h n (List.mem_cons_self n rest)
      rw [hp] at hh
      simp [except_is_ok] at hh
    · obtain ⟨kids0, hrec, hlen, hpt⟩ :=
        ih (fun x hx => h x (List.mem_cons_of_mem n hx)) (i + 1)
      rw [parse_split_kids, hp]
      dsimp only [and_then_e]
      rw [hrec]
      dsimp only [and_then_e]
      rcases hs : (KdlNode.get n "size").bind KdlValue.as_integer with _ | p
      · have hgs : get_size_int n = none := by rw [get_size_int.eq_def]; exact hs
        have hes : explicit_sizes (n :: rest) = explicit_sizes rest := by
          rw [explicit_sizes, List.filterMap_cons]
          have hx : explicit_size n = none := by
            rw [explicit_size, hgs]
            rfl
          rw [hx]
          rfl
        have hmi : missing_idx (n :: rest) i = i :: missing_idx rest (i + 1) := by
          rw [missing_idx, hgs]
          rfl
        refine ⟨c0 :: kids0, ?_, by simp [hlen], ?_⟩
        · rw [hes, hmi]
          dsimp only
          refine congrArg Except.ok ?_
          refine congrArg₂ Prod.mk rfl ?_
          refine congrArg₂ Prod.mk ?_ rfl
          omega
        · intro j n' hj
          cases j with
          | zero =>
            simp only [List.getElem?_cons_zero, Option.some.injEq] at hj
            subst hj
            refine ⟨c0, hp, ?_⟩
            rw [hgs, List.getElem?_cons_zero]
          | succ j' =>
            simp only [List.getElem?_cons_succ] at hj ⊢
            exact hpt j' n' hj
      · have hgs : get_size_int n = some p := by rw [get_size_int.eq_def]; exact hs
        have hes : explicit_sizes (n :: rest) = as_u8 p :: explicit_sizes rest := by
          rw [explicit_sizes, List.filterMap_cons]
          have hx : explicit_size n = some (as_u8 p) := by
            rw [explicit_size, hgs]
            rfl
          rw [hx]
          rfl
        have hmi : missing_idx (n :: rest) i = missing_idx rest (i + 1) := by
          rw [missing_idx, hgs]
          simp
        refine ⟨set_size c0 (as_u8 p) :: kids0, ?_, by simp [hlen], ?_⟩
        · rw [hes, hmi]
          dsimp only
          refine congrArg Except.ok ?_
          refine congrArg₂ Prod.mk rfl ?_
          refine congrArg₂ Prod.mk ?_ rfl
          rw [List.sum_cons]
          omega
        · intro j n' hj
          cases j with
          | zero =>
            simp only [List.getElem?_cons_zero, Option.some.injEq] at hj
            subst hj
            refine ⟨c0, hp, ?_⟩
            rw [hgs, List.getElem?_cons_zero]
          | succ j' =>
            simp only [List.getElem?_cons_succ] at hj ⊢
            exact hpt j' n' hj

theorem set_size_set_size (c : LayoutNode) (v : Nat) :
    set_size (set_size c v) v = set_size c v := by
  cases c <;> rfl

theorem set_size_at_length (v : Nat) (cs : List LayoutNode) :
    ∀ i, (set_size_at v cs i).length = cs.length := by
  induction cs with
  | nil => intro i; rfl
  | cons c rest ih =>
    intro i
    cases i with
    | zero => rfl
    | succ j => simp [set_size_at, ih j]

theorem foldl_set_size_at_length (v : Nat) (L : List Nat) :
    ∀ (cs : List LayoutNode), (L.foldl (fun a i => set_size_at v a i) cs).length = cs.length := by
  induction L with
  | nil => intro cs; rfl
  | cons i L' ih =>
    intro cs
    rw [List.foldl_cons, ih, set_size_at_length]

theorem set_size_at_getElem (v : Nat) (cs : List LayoutNode) :
    ∀ (i j : Nat), (set_size_at v cs i)[j]? =
      if i = j then (cs[j]?).map (fun c => set_size c v) else cs[j]? := by
  induction cs with
  | nil => intro i j; simp [set_size_at]
  | cons c rest ih =>
    intro i j
    cases i with
    | zero =>
      cases j with
      | zero => simp [set_size_at]
      | succ j' => simp [set_size_at]
    | succ i' =>
      cases j with
      | zero => simp [set_size_at]
      | succ j' =>
        simp only [set_size_at, List.getElem?_cons_succ]
        rw [ih i' j']
        by_cases h : i' = j'
        · rw [if_pos h, if_pos (by omega)]
        · rw [if_neg h, if_neg (by omega)]

theorem foldl_set_size_at_getElem (v : Nat) (L : List Nat) :
    ∀ (cs : List LayoutNode) (j : Nat),
      (L.foldl (fun a i => set_size_at v a i) cs)[j]? =
        if j ∈ L then (cs[j]?).map (fun c => set_size c v) else cs[j]? := by
  induction L with
  | nil => intro cs j; simp
  | cons i L' ih =>
    intro cs j
    rw [List.foldl_cons, ih, set_size_at_getElem]
    by_cases hj : j ∈ L'
    · rw [if_pos hj, if_pos (List.mem_cons_of_mem i hj)]
      by_cases hij : i = j
      · rw [if_pos hij]
        cases h : cs[j]? with
        | none => rfl
        | some c => simp [set_size_set_size]
      · rw [if_neg hij]
    · rw [if_neg hj]
      by_cases hij : i = j
      · rw [if_pos hij, if_pos (hij ▸ List.mem_cons_self i L')]
      · rw [if_neg hij, if_neg (by simp [List.mem_cons, hj]; exact fun he => hij he.symm)]

theorem missing_idx_ge (ns : List KdlNode) :
    ∀ (i m : Nat), m ∈ missing_idx ns i → i ≤ m := by
  induction ns with
  | nil => intro i m hm; simp [missing_idx] at hm
  | cons n rest ih =>
    intro i m hm
    rw [missing_idx] at hm
    rcases List.mem_append.mp hm with h | h
    · rcases hs : get_size_int n with _ | p
      · rw [hs] at h
        simp at h
        omega
      · rw [hs] at h
        simp at h
    · have := ih (i + 1) m h
      omega

theorem missing_idx_mem (ns : List KdlNode) :
    ∀ (i j : Nat), ((i + j) ∈ missing_idx ns i ↔
      ∃ n, ns[j]? = some n ∧ get_size_int n = none) := by
  induction ns with
  | nil =>
    intro i j
    simp [missing_idx]
  | cons n rest ih =>
    intro i j
    rw [missing_idx]
    cases j with
    | zero =>
      simp only [Nat.add_zero, List.getElem?_cons_zero, Option.some.injEq]
      constructor
      · intro hm
        rcases List.mem_append.mp hm with h | h
        · rcases hs : get_size_int n with _ | p
          · exact ⟨n, rfl, hs⟩
          · rw [hs] at h
            simp at h
        · have := missing_idx_ge rest (i + 1) i h
          omega
      · intro ⟨n', hn', hs⟩
        subst hn'
        rw [hs]
        exact List.mem_append_left _ (by simp)
    | succ j' =>
      have harith : i + (j' + 1) = (i + 1) + j' := by omega
      rw [harith]
      simp only [List.getElem?_cons_succ]
      constructor
      · intro hm
        rcases List.mem_append.mp hm with h | h
        · rcases hs : get_size_int n with _ | p
          · rw [hs] at h
            simp at h
            omega
          · rw [hs] at h
            simp at h
        · exact (ih (i + 1) j').mp h
      · intro hx
        exact List.mem_append_right _ ((ih (i + 1) j').mpr hx)

theorem missing_idx_length (ns : List KdlNode) :
    ∀ i, (missing_idx ns i).length = missing_count ns := by
  induction ns with
  | nil => intro i; rfl
  | cons n rest ih =>
    intro i
    rw [missing_idx, missing_count, List.filter_cons]
    rcases hs : get_size_int n with _ | p
    · simp [ih (i + 1), missing_count]
    · simp [ih (i + 1), missing_count]

/-- C4 amended: for a split whose children all parse successfully — pane
or nested split alike — with narrowed explicit sizes summing to less than
256 (so the wrapping `u8` accumulator equals the true sum) and with fewer
than 256 unsized children, sizes are resolved exactly as the claim
states: explicitly sized children keep their (narrowed) size;
`remaining = 100 − sum(explicit)` clamped at 0; every child lacking a
size receives `remaining / missing_count` by truncating integer division,
with no redistribution of the remainder — so
`[{size:33}, {no size}, {size:33}]` gives the middle child 34.  Beyond
the 256 bound the accumulator wraps (see the counterexample). -/
theorem C4_size_resolution (entries : List (String × KdlValue)) (ns : List KdlNode)
    (cwd : String) (d : SplitDirection)
    (hok : ∀ n ∈ ns, except_is_ok (parse_node_recursive n cwd) = true) (hne : ns ≠ [])
    (hdir : parse_direction (.mk "split" entries (some ns)) = .ok d)
    (hsum : (explicit_sizes ns).sum < 256) (hcnt : missing_count ns < 256) :
    ∃ kids, parse_node_recursive (.mk "split" entries (some ns)) cwd =
        .ok (.split d kids
          ((((lookup_entry "size" entries).bind KdlValue.as_integer).map as_u8).getD 0))
      ∧ kids.length = ns.length
      ∧ ∀ (j : Nat) (n : KdlNode), ns[j]? = some n →
          ∃ c, kids[j]? = some c ∧
            node_size c = (match get_size_int n with
              | some z => as_u8 z
              | none => claim_share (explicit_sizes ns) (missing_count ns)) := by
  obtain ⟨kids0, hks, hlen0, hpt⟩ := parse_split_kids_ok ns cwd hok 0
  have hk0ne : ¬(kids0.isEmpty = true) := by
    rw [List.isEmpty_iff]
    intro hk
    apply hne
    rw [hk] at hlen0
    exact List.length_eq_zero.mp hlen0.symm
  rw [parse_node_recursive.eq_def]
  dsimp only
  rw [if_neg (by decide), if_pos rfl, hdir]
  dsimp only [and_then_e]
  rw [hks]
  dsimp only [and_then_e]
  rw [split_assemble]
  dsimp only
  rw [if_neg hk0ne]
  have hmodsum : (explicit_sizes ns).sum % 256 = (explicit_sizes ns).sum := Nat.mod_eq_of_lt hsum
  have hmodcnt : (missing_idx ns 0).length % 256 = missing_count ns := by
    rw [missing_idx_length ns 0]
    exact Nat.mod_eq_of_lt hcnt
  by_cases hm : (missing_idx ns 0).isEmpty
  · rw [if_pos hm]
    refine ⟨kids0, rfl, hlen0, ?_⟩
    intro j n hj
    obtain ⟨c0, hc0, hk⟩ := hpt j n hj
    rcases hs : get_size_int n with _ | z
    · exfalso
      have hmem : (0 + j) ∈ missing_idx ns 0 := (missing_idx_mem ns 0 j).mpr ⟨n, hj, hs⟩
      rw [List.isEmpty_iff] at hm
      rw [hm] at hmem
      simp at hmem
    · rw [hs] at hk
      exact ⟨set_size c0 (as_u8 z), hk, node_size_set_size c0 (as_u8 z)⟩
  · rw [if_neg hm]
    rw [hmodsum, hmodcnt]
    refine ⟨_, rfl, ?_, ?_⟩
    · rw [foldl_set_size_at_length, hlen0]
    · intro j n hj
      obtain ⟨c0, hc0, hk⟩ := hpt j n hj
      rw [foldl_set_size_at_getElem]
      rcases hs : get_size_int n with _ | z
      · have hmem : j ∈ missing_idx ns 0 := by
          have := (missing_idx_mem ns 0 j).mpr ⟨n, hj, hs⟩
          simpa using this
        rw [if_pos hmem]
        rw [hs] at hk
        rw [hk]
        refine ⟨set_size c0 (claim_share (explicit_sizes ns) (missing_count ns)), rfl, ?_⟩
        rw [node_size_set_size]
      · have hmem : j ∉ missing_idx ns 0 := by
          intro hmem
          obtain ⟨n', hn', hs'⟩ := (missing_idx_mem ns 0 j).mp (by simpa using hmem)
          rw [hj] at hn'
          simp only [Option.some.injEq] at hn'
          subst hn'
          rw [hs] at hs'
          simp at hs'
        rw [if_neg hmem]
        rw [hs] at hk
        exact ⟨set_size c0 (as_u8 z), hk, node_size_set_size c0 (as_u8 z)⟩

/-- Witness for the amended C4 at the spec's example
`[{size:33}, {command:"nvim"}, {size:33}]` — the middle child's computed
size is `(100 − 66) / 1 = 34` — together with a split whose unsized
second child is itself a nested split: the nested split receives the
distributed share `(100 − 40) / 1 = 60`. -/
theorem C4_size_resolution_witness :
    (∀ n ∈ [pane_node [("size", .int 33)], pane_node [("command", .str "nvim")],
        pane_node [("size", .int 33)]], except_is_ok (parse_node_recursive n "~") = true)
    ∧ (explicit_sizes [pane_node [("size", .int 33)], pane_node [("command", .str "nvim")],
        pane_node [("size", .int 33)]]).sum < 256
    ∧ (∃ kids, parse_node_recursive (.mk "split" []
          (some [pane_node [("size", .int 33)], pane_node [("command", .str "nvim")],
            pane_node [("size", .int 33)]])) "~" =
        .ok (.split .vertical kids
          ((((lookup_entry "size" ([] : List (String × KdlValue))).bind
              KdlValue.as_integer).map as_u8).getD 0))
        ∧ kids.length = 3
        ∧ ∀ (j : Nat) (n : KdlNode), [pane_node [("size", .int 33)],
              pane_node [("command", .str "nvim")],
              pane_node [("size", .int 33)]][j]? = some n →
            ∃ c, kids[j]? = some c ∧
              node_size c = (match get_size_int n with
                | some z => as_u8 z
                | none => claim_share (explicit_sizes [pane_node [("size", .int 33)],
                    pane_node [("command", .str "nvim")], pane_node [("size", .int 33)]])
                    (missing_count [pane_node [("size", .int 33)],
                      pane_node [("command", .str "nvim")], pane_node [("size", .int 33)]])))
    ∧ parse_node_recursive demo_split_33 "~" =
        .ok (.split .vertical
          [.pane "~" none 33, .pane "~" (some "nvim") 34, .pane "~" none 33] 0)
    ∧ parse_node_recursive demo_split_nested "~" =
        .ok (.split .vertical
          [.pane "~" none 40,
           .split .vertical [.pane "~" none 50, .pane "~" none 50] 60] 0) :=
  ⟨by decide, by decide,
   C4_size_resolution [] _ "~" .vertical (by decide) (List.cons_ne_nil _ _) rfl (by decide)
     (by decide),
   rfl, rfl⟩

/-- C4 counterexample: children `[{size:130}, {no size}, {size:130}]`
declare explicit sizes summing to 260, so the claim's rule — clamp
`100 − 260` to 0 — would give the middle child 0; the code's `u8`
accumulator wraps 260 to 4, leaving `remaining = 96`, and the middle
child is assigned 96. -/
theorem C4_counterexample :
    parse_node_recursive demo_split_130 "~" =
      .ok (.split .vertical
        [.pane "~" none 130, .pane "~" none 96, .pane "~" none 130] 0)
    ∧ explicit_sizes [pane_node [("size", .int 130)], pane_node [],
        pane_node [("size", .int 130)]] = [130, 130]
    ∧ claim_share [130, 130] 1 = 0
    ∧ (96 : Nat) ≠ 0 :=
  ⟨rfl, rfl, by decide, by decide⟩

end Parser

end Muffin
